import Mathlib

/-!
Formal model of the decision and guardrail core of the complaints
orchestrator (a customer-complaint resolution pipeline).

Text is modelled as `List Char`.  Python regular-expression searching for
the four fixed violation patterns of `utils/output_guard.py` is modelled by
executable matchers specialised to those patterns:

* the three keyword patterns (`INTERNAL_SCORES`, `INTERNAL_POLICY_IDS`,
  `RAW_RAG_EXCERPT`) are word-boundary-delimited, case-insensitive keyword
  alternations; a match exists iff some keyword occurs at a position whose
  neighbouring characters are not word characters;
* `TOOL_JSON_BLOB` (`\{[^{}]{0,600}:[^{}]{0,600}\}`) matches iff the text
  contains an opening brace, then at most 600 non-brace characters, a
  colon, at most 600 non-brace characters and a closing brace.

Python `\w` is modelled for ASCII text as letters, digits and underscore;
Python `\s` as the six ASCII whitespace characters.  `str.splitlines` is
modelled as splitting on newline characters.  Monetary and confidence
values (Python floats) are modelled as rationals, with Python `round`
modelled as round-half-to-even.
-/

set_option allowUnsafeReducibility true in
attribute [semireducible] Rat.mul Rat.add Rat.sub Rat.inv

/-- Word characters, as in Python's `\w` for ASCII text. -/
def isWordChar (c : Char) : Bool :=
  c.isAlphanum || c = '_'

/-- Whitespace, as in Python's `\s` for ASCII text. -/
def pyIsSpace (c : Char) : Bool :=
  c = ' ' || c = '\t' || c = '\n' || c = '\r' || c = '\x0b' || c = '\x0c'

/-- A word boundary between the previous character (`none` at the start of
the text) and an upcoming word character. -/
def word_boundary_before (prev : Option Char) : Bool :=
  match prev with
  | none => true
  | some c => !isWordChar c

/-- A word boundary between a just-finished word character and the rest of
the text. -/
def word_boundary_after (l : List Char) : Bool :=
  match l with
  | [] => true
  | c :: _ => !isWordChar c

/-- The replacement text used by subject sanitization in
`sanitize_customer_email`. -/
def redactedInternal : List Char :=
  "[REDACTED_INTERNAL]".toList

/-- Keywords of the `INTERNAL_SCORES` pattern, in alternation order. -/
def scores_keywords : List (List Char) :=
  ["score".toList, "confidence".toList, "triage_confidence".toList,
   "context_confidence".toList, "resolution_confidence".toList]

/-- Keywords of the `INTERNAL_POLICY_IDS` pattern, in alternation order. -/
def policy_keywords : List (List Char) :=
  ["doc_id".toList, "policy_id".toList, "policy_type".toList]

/-- Keywords of the `RAW_RAG_EXCERPT` pattern, in alternation order. -/
def rag_keywords : List (List Char) :=
  ["rag_snippet".toList, "source_path".toList, "chunk_index".toList]

/-- If one of the keywords `ws` matches (case-insensitively) at the head of
`l` with word boundaries on both sides, return it (the first one in
alternation order, as the regex engine would pick). -/
def keyword_here (ws : List (List Char)) (prev : Option Char) (l : List Char) :
    Option (List Char) :=
  if word_boundary_before prev then
    ws.find? (fun w =>
      decide ((l.take w.length).map Char.toLower = w) &&
      word_boundary_after (l.drop w.length))
  else none

/-- Search for a keyword match anywhere in the text (`prev` is the
character preceding the current position, used for the word boundary). -/
def keyword_search_go (ws : List (List Char)) : Option Char → List Char → Bool
  | _, [] => false
  | prev, c :: rest =>
    (keyword_here ws prev (c :: rest)).isSome || keyword_search_go ws (some c) rest

/-- Whether a word-boundary keyword pattern matches anywhere in the text:
models `pattern.search(text)` for the three keyword patterns. -/
def keyword_search (ws : List (List Char)) (l : List Char) : Bool :=
  keyword_search_go ws none l

/-- Scanning for the closing brace of a `TOOL_JSON_BLOB` match: `l` is the
text after the colon, `n` non-brace characters have been consumed so far
(at most 600 allowed).  Returns the number of characters before the
closing brace. -/
def close_scan : Nat → List Char → Option Nat
  | _, [] => none
  | n, c :: rest =>
    if c = '}' then some 0
    else if c = '{' then none
    else if n < 600 then (close_scan (n + 1) rest).map (· + 1) else none

/-- Scanning for the separating colon of a `TOOL_JSON_BLOB` match: `l` is
the text after the opening brace, `n` non-brace characters consumed so far.
Returns the total number of characters through the closing brace.  Prefers
the latest usable colon, as the greedy `[^{}]{0,600}` does. -/
def colon_scan : Nat → List Char → Option Nat
  | _, [] => none
  | n, c :: rest =>
    if c = '{' ∨ c = '}' then none
    else
      match (if n < 600 then (colon_scan (n + 1) rest).map (· + 1) else none) with
      | some k => some k
      | none =>
        if c = ':' then (close_scan 0 rest).map (· + 2) else none

/-- Whether the `TOOL_JSON_BLOB` pattern `\{[^{}]{0,600}:[^{}]{0,600}\}`
matches anywhere in the text. -/
def blob_search : List Char → Bool
  | [] => false
  | c :: rest =>
    (if c = '{' then (colon_scan 0 rest).isSome else false) || blob_search rest

/-- One violation-pattern search over a line (used for line dropping):
models `any(pattern.search(line) for pattern in VIOLATION_PATTERNS.values())`. -/
def line_has_violation (l : List Char) : Bool :=
  keyword_search scores_keywords l || keyword_search policy_keywords l ||
  keyword_search rag_keywords l || blob_search l

/-- `_find_violations`: search `subject + "\n" + body` with each pattern, in
the dictionary order of `VIOLATION_PATTERNS`. -/
def find_violations (subject body : List Char) : List String :=
  let combined := subject ++ '\n' :: body
  (if keyword_search scores_keywords combined then ["INTERNAL_SCORES"] else []) ++
  (if keyword_search policy_keywords combined then ["INTERNAL_POLICY_IDS"] else []) ++
  (if keyword_search rag_keywords combined then ["RAW_RAG_EXCERPT"] else []) ++
  (if blob_search combined then ["TOOL_JSON_BLOB"] else [])

/-- Result record of the output guard (`GuardResult`). -/
structure GuardResult where
  passed : Bool
  violations : List String
  sanitized_subject : List Char
  sanitized_body : List Char

/-- `evaluate_output_guard`: pass iff no violation pattern matches. -/
def evaluate_output_guard (subject body : List Char) : GuardResult :=
  let violations := find_violations subject body
  { passed := violations.isEmpty
    violations := violations
    sanitized_subject := subject
    sanitized_body := body }

/-- Substitute every keyword-pattern match in the text by
`[REDACTED_INTERNAL]` (models `pattern.sub` for a keyword pattern; the fuel
argument bounds the recursion by the text length and is never exhausted). -/
def keyword_sub_go (ws : List (List Char)) : Nat → Option Char → List Char → List Char
  | 0, _, l => l
  | _ + 1, _, [] => []
  | fuel + 1, prev, c :: rest =>
    match keyword_here ws prev (c :: rest) with
    | some w =>
      redactedInternal ++
        keyword_sub_go ws fuel (some (w.getLastD '_')) (rest.drop (w.length - 1))
    | none => c :: keyword_sub_go ws fuel (some c) rest

/-- Keyword-pattern substitution over a whole text. -/
def keyword_sub (ws : List (List Char)) (l : List Char) : List Char :=
  keyword_sub_go ws l.length none l

/-- Substitute every `TOOL_JSON_BLOB` match by `[REDACTED_INTERNAL]`. -/
def blob_sub_go : Nat → List Char → List Char
  | 0, l => l
  | _ + 1, [] => []
  | fuel + 1, c :: rest =>
    if c = '{' then
      match colon_scan 0 rest with
      | some k => redactedInternal ++ blob_sub_go fuel (rest.drop k)
      | none => c :: blob_sub_go fuel rest
    else c :: blob_sub_go fuel rest

/-- Blob-pattern substitution over a whole text. -/
def blob_sub (l : List Char) : List Char :=
  blob_sub_go l.length l

/-- Collapse every maximal run of whitespace to a single space: models
`re.sub(r"\s+", " ", text)`.  The flag records whether the previous
character was whitespace. -/
def collapse_ws_go : Bool → List Char → List Char
  | _, [] => []
  | prevSpace, c :: rest =>
    if pyIsSpace c then
      (if prevSpace then [] else [' ']) ++ collapse_ws_go true rest
    else c :: collapse_ws_go false rest

/-- Whitespace collapsing over a whole text. -/
def collapse_ws (l : List Char) : List Char :=
  collapse_ws_go false l

/-- Strip whitespace from both ends: models `str.strip()`. -/
def strip_ws (l : List Char) : List Char :=
  ((l.dropWhile pyIsSpace).reverse.dropWhile pyIsSpace).reverse

/-- Split on newline characters, keeping a final empty piece. -/
def split_on_nl : List Char → List (List Char)
  | [] => [[]]
  | c :: rest =>
    if c = '\n' then [] :: split_on_nl rest
    else
      match split_on_nl rest with
      | [] => [[c]]
      | h :: t => (c :: h) :: t

/-- Line splitting: models `str.splitlines()` for newline-separated text
(empty text gives no lines; a trailing newline does not open a new line). -/
def split_lines (l : List Char) : List (List Char) :=
  match l with
  | [] => []
  | _ =>
    if l.getLast? = some '\n' then (split_on_nl l).dropLast
    else split_on_nl l

/-- Join lines with newline characters: models `"\n".join(lines)`. -/
def join_nl : List (List Char) → List Char
  | [] => []
  | [l] => l
  | l :: rest => l ++ '\n' :: join_nl rest

/-- The last character of a prefix, or the surrounding previous character
when the prefix is empty (the previous-character state after scanning the
prefix). -/
def last_or (x : List Char) (prev : Option Char) : Option Char :=
  match x.getLast? with
  | some c => some c
  | none => prev

/-- Collapse every run of three or more newlines to exactly two: models
`re.sub(r"\n{3,}", "\n\n", text)`.  `pending` counts newlines seen but not
yet emitted. -/
def collapse_nl_go : Nat → List Char → List Char
  | pending, [] => List.replicate (min pending 2) '\n'
  | pending, c :: rest =>
    if c = '\n' then collapse_nl_go (pending + 1) rest
    else List.replicate (min pending 2) '\n' ++ c :: collapse_nl_go 0 rest

/-- Newline-run collapsing over a whole text. -/
def collapse_nl (l : List Char) : List Char :=
  collapse_nl_go 0 l

/-- `sanitize_customer_email`: redact every pattern match in the subject
(each pattern substituted in dictionary order) and collapse whitespace;
drop every body line containing a violation, then strip and collapse blank
runs. -/
def sanitize_customer_email (subject body : List Char) : List Char × List Char :=
  let cleaned_subject :=
    strip_ws (collapse_ws
      (blob_sub (keyword_sub rag_keywords
        (keyword_sub policy_keywords (keyword_sub scores_keywords subject)))))
  let kept_lines := (split_lines body).filter (fun ln => !line_has_violation ln)
  let cleaned_body := collapse_nl (strip_ws (join_nl kept_lines))
  (cleaned_subject, cleaned_body)

/-- `apply_output_guard`: evaluate the original text; if it fails and
sanitization is attempted, sanitize and re-evaluate; pass only with
violation-free text.  (Security-event logging is a side channel and is not
modelled.) -/
def apply_output_guard (subject body : List Char) (attempt_sanitize : Bool) :
    GuardResult :=
  let initial := evaluate_output_guard subject body
  if initial.passed then initial
  else if !attempt_sanitize then initial
  else
    let sp := sanitize_customer_email subject body
    let after := evaluate_output_guard sp.1 sp.2
    if after.passed then
      { passed := true
        violations := initial.violations
        sanitized_subject := sp.1
        sanitized_body := sp.2 }
    else
      { passed := false
        violations := after.violations
        sanitized_subject := sp.1
        sanitized_body := sp.2 }

/-- Round-half-to-even on a rational, as Python's `round` does on floats
whose value is representable exactly. -/
def roundHalfEven (q : ℚ) : ℤ :=
  let f := ⌊q⌋
  let r := q - (f : ℚ)
  if r < 1 / 2 then f
  else if 1 / 2 < r then f + 1
  else if f % 2 = 0 then f else f + 1

/-- Python `round(x, 2)` modelled on rationals. -/
def round2 (q : ℚ) : ℚ :=
  ((roundHalfEven (100 * q) : ℤ) : ℚ) / 100

/-- The decision enum `DecisionType`. -/
inductive DecisionType where
  | REFUND
  | VOUCHER
  | EXCHANGE
  | ESCALATE
  | INFO_ONLY
deriving DecidableEq

/-- The risk-flag enum `RiskFlag`. -/
inductive RiskFlag where
  | LEGAL_THREAT
  | PUBLIC_EXPOSURE
  | REPEAT_CLAIM
  | HIGH_AMOUNT_RISK
deriving DecidableEq

/-- The urgency enum `UrgencyLevel`. -/
inductive UrgencyLevel where
  | LOW
  | MEDIUM
  | HIGH
  | CRITICAL
deriving DecidableEq

/-- The sentiment enum `SentimentLabel`. -/
inductive SentimentLabel where
  | NEGATIVE
  | NEUTRAL
  | POSITIVE
deriving DecidableEq

/-- The response-language enum `ResponseLanguage`. -/
inductive ResponseLanguage where
  | FR
  | EN
deriving DecidableEq

/-- The route enum `RouteType`. -/
inductive RouteType where
  | ESCALATE_IMMEDIATE
  | NEED_CONTEXT
  | HITL_REVIEW
  | READY_TO_FINALIZE
deriving DecidableEq

/-- The enum value string of a risk flag. -/
def RiskFlag.value : RiskFlag → String
  | .LEGAL_THREAT => "LEGAL_THREAT"
  | .PUBLIC_EXPOSURE => "PUBLIC_EXPOSURE"
  | .REPEAT_CLAIM => "REPEAT_CLAIM"
  | .HIGH_AMOUNT_RISK => "HIGH_AMOUNT_RISK"

/-- The enum value string of a sentiment label. -/
def SentimentLabel.value : SentimentLabel → String
  | .NEGATIVE => "NEGATIVE"
  | .NEUTRAL => "NEUTRAL"
  | .POSITIVE => "POSITIVE"

/-- The enum value string of an urgency level. -/
def UrgencyLevel.value : UrgencyLevel → String
  | .LOW => "LOW"
  | .MEDIUM => "MEDIUM"
  | .HIGH => "HIGH"
  | .CRITICAL => "CRITICAL"

/-- `str.upper()` for ASCII text. -/
def py_upper (s : String) : String :=
  String.mk (s.toList.map Char.toUpper)

/-- `str.lower()` for ASCII text. -/
def py_lower (s : String) : String :=
  String.mk (s.toList.map Char.toLower)

/-- `str.strip()`. -/
def py_strip (s : String) : String :=
  String.mk (strip_ws s.toList)

/-- `normalize_text`: strip, uppercase, replace spaces by underscores. -/
def normalize_text (s : String) : String :=
  String.mk (((strip_ws s.toList).map Char.toUpper).map
    (fun c => if c = ' ' then '_' else c))

/-- `contains_any`: the lowered text contains one of the given substrings. -/
def contains_any (text : String) (options : List String) : Bool :=
  options.any (fun opt => decide (opt.toList <:+: text.toList.map Char.toLower))

/-- `TriageOutput` (the fields the resolution stage reads). -/
structure TriageOutput where
  complaint_type : String
  sentiment : SentimentLabel
  urgency : UrgencyLevel
  response_language : ResponseLanguage
  risk_flags : List RiskFlag
  triage_confidence : ℚ

/-- `ContextOutput`, with the dictionary entries the resolution stage reads
(`order_context["status"]`, `order_context["order_total"]`,
`order_context["currency"]`, `customer_context["fraud_watch"]`,
`customer_context["ninety_day_compensation_total"]`,
`case_history_summary["repeat_claim_suspected"]`,
`case_history_summary["recent_escalations_count"]`) modelled as typed
fields; the `to_float`/`to_int`/`to_bool` coercions with defaults are
absorbed into the field types. -/
structure ContextOutput where
  order_status : String
  order_total : ℚ
  currency : String
  fraud_watch : Bool
  ninety_day_compensation_total : ℚ
  repeat_claim_suspected : Bool
  recent_escalations_count : ℤ
  policy_constraints : List String
  context_confidence : ℚ

/-- The lowered, space-joined policy-constraint text
(`" ".join(context.policy_constraints).lower()`). -/
def policy_text_of (ctx : ContextOutput) : String :=
  py_lower (String.intercalate " " ctx.policy_constraints)

/-- The five option scores, keyed as in the score dictionary of
`_score_options` (in its insertion order INFO_ONLY, VOUCHER, REFUND,
EXCHANGE, ESCALATE). -/
structure OptionScores where
  info_only : ℚ
  voucher : ℚ
  refund : ℚ
  exchange : ℚ
  escalate : ℚ

/-- Whether the complaint type is in the defect/damage category. -/
def isDefectCategory (ct : String) : Prop :=
  ct = "DEFECTIVE_ITEM" ∨ ct = "DAMAGED_ITEM"

/-- Whether the complaint type is in the wrong-item category. -/
def isWrongItemCategory (ct : String) : Prop :=
  ct = "WRONG_ITEM" ∨ ct = "SIZE_MISMATCH" ∨ ct = "MATERIAL_DIFFERENCE"

/-- Whether the complaint type is in the delivery-delay category. -/
def isDeliveryCategory (ct : String) : Prop :=
  ct = "LATE_DELIVERY" ∨ ct = "DELIVERY_DELAY" ∨ ct = "TRACKING_REQUEST"

/-- Whether the complaint type is in the public/legal category. -/
def isPublicLegalCategory (ct : String) : Prop :=
  ct = "PUBLIC_COMPLAINT" ∨ ct = "LEGAL_COMPLAINT"

instance (ct : String) : Decidable (isDefectCategory ct) := by
  unfold isDefectCategory; infer_instance

instance (ct : String) : Decidable (isWrongItemCategory ct) := by
  unfold isWrongItemCategory; infer_instance

instance (ct : String) : Decidable (isDeliveryCategory ct) := by
  unfold isDeliveryCategory; infer_instance

instance (ct : String) : Decidable (isPublicLegalCategory ct) := by
  unfold isPublicLegalCategory; infer_instance

/-- The INFO_ONLY score of `_score_options`: base 15 plus the conditional
deltas that touch INFO_ONLY, in source order (the sequential `+=` updates
compile to one sum of conditional deltas per decision). -/
def info_only_score (t : TriageOutput) (ctx : ContextOutput) : ℚ :=
  let ct := normalize_text t.complaint_type
  let order_status := normalize_text ctx.order_status
  15 + (if isDeliveryCategory ct then 30 else 0) +
    (if order_status = "IN_TRANSIT" then 15
     else if order_status ≠ "DELIVERED" then 8 else 0)

/-- The VOUCHER score of `_score_options`: base 12 plus its conditional
deltas, in source order. -/
def voucher_score (t : TriageOutput) (ctx : ContextOutput) : ℚ :=
  let ct := normalize_text t.complaint_type
  let policy_text := policy_text_of ctx
  12 + (if isDefectCategory ct then 8 else 0) +
    (if isDeliveryCategory ct then 20 else 0) +
    (if t.urgency = UrgencyLevel.HIGH ∨ t.urgency = UrgencyLevel.CRITICAL then 7 else 0) +
    (if ctx.fraud_watch then -12 else 0) +
    (if ctx.repeat_claim_suspected then -12 else 0) +
    (if ctx.ninety_day_compensation_total ≥ 60 then -16 else 0) +
    (if contains_any policy_text ["compensation", "voucher", "bon"] then 7 else 0)

/-- The REFUND score of `_score_options`: base 10 plus its conditional
deltas, in source order. -/
def refund_score (t : TriageOutput) (ctx : ContextOutput) : ℚ :=
  let ct := normalize_text t.complaint_type
  let order_status := normalize_text ctx.order_status
  let policy_text := policy_text_of ctx
  10 + (if isDefectCategory ct then 45 else 0) +
    (if isWrongItemCategory ct then 22 else 0) +
    (if order_status = "IN_TRANSIT" then -18
     else if order_status ≠ "DELIVERED" then -8 else 0) +
    (if ctx.fraud_watch then -14 else 0) +
    (if ctx.ninety_day_compensation_total ≥ 60 then -8 else 0) +
    (if contains_any policy_text
        ["refund is allowed", "remboursement est permis", "refund allowed"] then 10 else 0)

/-- The EXCHANGE score of `_score_options`: base 10 plus its conditional
deltas, in source order. -/
def exchange_score (t : TriageOutput) (ctx : ContextOutput) : ℚ :=
  let ct := normalize_text t.complaint_type
  let order_status := normalize_text ctx.order_status
  let policy_text := policy_text_of ctx
  10 + (if isDefectCategory ct then 28 else 0) +
    (if isWrongItemCategory ct then 45 else 0) +
    (if order_status = "IN_TRANSIT" then -12 else 0) +
    (if contains_any policy_text ["exchange", "echange"] then 8 else 0)

/-- The ESCALATE score of `_score_options`: base 6 plus its conditional
deltas, in source order; the risk flags LEGAL_THREAT and PUBLIC_EXPOSURE
contribute the dominating +100. -/
def escalate_score (t : TriageOutput) (ctx : ContextOutput) : ℚ :=
  let ct := normalize_text t.complaint_type
  let policy_text := policy_text_of ctx
  6 + (if isPublicLegalCategory ct then 55 else 0) +
    (if t.urgency = UrgencyLevel.CRITICAL then 20 else 0) +
    (if ctx.fraud_watch then 30 else 0) +
    (if ctx.repeat_claim_suspected then 16 else 0) +
    (if ctx.ninety_day_compensation_total ≥ 60 then 8 else 0) +
    (if ctx.order_total ≥ 200 then 8 else 0) +
    (if contains_any policy_text
        ["human review", "revue humaine", "specialist", "escalation"] then 12 else 0) +
    (if RiskFlag.LEGAL_THREAT ∈ t.risk_flags ∨ RiskFlag.PUBLIC_EXPOSURE ∈ t.risk_flags then
      100 else 0) +
    (if RiskFlag.REPEAT_CLAIM ∈ t.risk_flags then 18 else 0) +
    (if RiskFlag.HIGH_AMOUNT_RISK ∈ t.risk_flags then 14 else 0)

/-- `_score_options`: the raw additive scores per decision, each finally
floored at 0 and rounded to two decimals. -/
def score_options (t : TriageOutput) (ctx : ContextOutput) : OptionScores :=
  { info_only := round2 (max (info_only_score t ctx) 0)
    voucher := round2 (max (voucher_score t ctx) 0)
    refund := round2 (max (refund_score t ctx) 0)
    exchange := round2 (max (exchange_score t ctx) 0)
    escalate := round2 (max (escalate_score t ctx) 0) }

/-- The score dictionary as an association list in its insertion order. -/
def OptionScores.toList (s : OptionScores) : List (DecisionType × ℚ) :=
  [(DecisionType.INFO_ONLY, s.info_only), (DecisionType.VOUCHER, s.voucher),
   (DecisionType.REFUND, s.refund), (DecisionType.EXCHANGE, s.exchange),
   (DecisionType.ESCALATE, s.escalate)]

/-- The fixed tie-break priority order of `pick_best_decision`. -/
def tie_break_order : List DecisionType :=
  [DecisionType.ESCALATE, DecisionType.REFUND, DecisionType.EXCHANGE,
   DecisionType.VOUCHER, DecisionType.INFO_ONLY]

/-- `max(values)` of a non-empty list, folding from the left as Python's
`max` does (0 for the empty list, which Python would reject). -/
def max_values : List ℚ → ℚ
  | [] => 0
  | x :: xs => xs.foldl max x

/-- `pick_best_decision`: select the maximum score; break ties by the fixed
priority order; fall back to INFO_ONLY (unreachable for the scorer's
dictionaries). -/
def pick_best_decision (scores : List (DecisionType × ℚ)) : DecisionType :=
  let best := max_values (scores.map Prod.snd)
  let candidates := (scores.filter (fun p => p.2 = best)).map Prod.fst
  match tie_break_order.find? (fun d => decide (d ∈ candidates)) with
  | some d => d
  | none => DecisionType.INFO_ONLY

/-- The position of a decision in the fixed tie-break priority order
(0 is the highest priority). -/
def priorityIdx : DecisionType → Nat
  | .ESCALATE => 0
  | .REFUND => 1
  | .EXCHANGE => 2
  | .VOUCHER => 3
  | .INFO_ONLY => 4

/-- `score_to_confidence`: blend of the best score with triage and context
confidences, clamped to [0, 1] and rounded. -/
def score_to_confidence (best_score triage_confidence context_confidence : ℚ) : ℚ :=
  let score_component := min (max (best_score / 100) 0) 1
  let blended :=
    (6 / 10) * score_component + (2 / 10) * triage_confidence +
      (2 / 10) * context_confidence
  round2 (min (max blended 0) 1)

/-- `compute_voucher_value`: 18% of the order total clamped to [10, 60],
reduced by a quarter when the 90-day compensation total is at least 50,
floored at 5 and rounded to two decimals. -/
def compute_voucher_value (ctx : ContextOutput) : ℚ :=
  let order_total := ctx.order_total
  let comp_total_90d := ctx.ninety_day_compensation_total
  let value := max 10 (min (order_total * (18 / 100)) 60)
  let value := if comp_total_90d ≥ 50 then value * (75 / 100) else value
  round2 (max value 5)

/-- The enum value string of a decision. -/
def DecisionType.value : DecisionType → String
  | .REFUND => "REFUND"
  | .VOUCHER => "VOUCHER"
  | .EXCHANGE => "EXCHANGE"
  | .ESCALATE => "ESCALATE"
  | .INFO_ONLY => "INFO_ONLY"

/-- Dictionary lookup `option_scores[decision]`. -/
def OptionScores.get (s : OptionScores) : DecisionType → ℚ
  | .INFO_ONLY => s.info_only
  | .VOUCHER => s.voucher
  | .REFUND => s.refund
  | .EXCHANGE => s.exchange
  | .ESCALATE => s.escalate

/-- A Python value fed to `float(...)`: either convertible to a number or
not (in which case `float` raises and `coerce_confidence` re-raises). -/
inductive PyNumber where
  | num (q : ℚ)
  | notNumeric (shown : String)

/-- `coerce_confidence` (identical in `triage_agent_utils` and
`resolution_agent_utils`, up to the default field name): error on
non-numeric input, clamp below 0 to 0 and above 1 to 1, otherwise round to
two decimals. -/
def coerce_confidence (raw : PyNumber) (field_name : String) : Except String ℚ :=
  match raw with
  | .notNumeric shown => .error ("Invalid " ++ field_name ++ " from Mistral: " ++ shown)
  | .num value =>
    .ok (if value < 0 then 0 else if value > 1 then 1 else round2 value)

/-- The raw `risk_flags` field of a triage response: `None`, a non-list
value, or a list of strings. -/
inductive RiskFlagsRaw where
  | pyNone
  | notList (shown : String)
  | items (l : List String)

/-- Match one raw string against the `RiskFlag` enum values, in enum
declaration order. -/
def parse_risk_flag (s : String) : Option RiskFlag :=
  let value := py_upper (py_strip s)
  [RiskFlag.LEGAL_THREAT, RiskFlag.PUBLIC_EXPOSURE, RiskFlag.REPEAT_CLAIM,
   RiskFlag.HIGH_AMOUNT_RISK].find? (fun risk => decide (value = risk.value))

/-- `coerce_risk_flags`: `None` becomes the empty list, a non-list raises,
recognized flag strings are collected without duplicates, and unknown flag
strings are dropped (with a logged warning, not modelled). -/
def coerce_risk_flags (raw : RiskFlagsRaw) : Except String (List RiskFlag) :=
  match raw with
  | .pyNone => .ok []
  | .notList _ => .error "risk_flags must be a list in Mistral triage output."
  | .items l =>
    .ok (l.foldl (fun output item =>
      match parse_risk_flag item with
      | some risk => if risk ∈ output then output else output ++ [risk]
      | none => output) [])

/-- `coerce_sentiment`: match against the sentiment enum values in source
order, raising on anything else. -/
def coerce_sentiment (raw : String) : Except String SentimentLabel :=
  let value := py_upper (py_strip raw)
  if value = "NEGATIVE" then .ok SentimentLabel.NEGATIVE
  else if value = "POSITIVE" then .ok SentimentLabel.POSITIVE
  else if value = "NEUTRAL" then .ok SentimentLabel.NEUTRAL
  else .error ("Invalid sentiment from Mistral: " ++ raw)

/-- `coerce_urgency`: match against the urgency enum values in enum order,
raising on anything else. -/
def coerce_urgency (raw : String) : Except String UrgencyLevel :=
  let value := py_upper (py_strip raw)
  match [UrgencyLevel.LOW, UrgencyLevel.MEDIUM, UrgencyLevel.HIGH,
      UrgencyLevel.CRITICAL].find? (fun urgency => decide (value = urgency.value)) with
  | some urgency => .ok urgency
  | none => .error ("Invalid urgency from Mistral: " ++ raw)

/-- `ResolutionSignals`; the two environment variables read by the
threshold resolvers are modelled as explicit fields carrying their parsed
values (defaults 150.0 and 0.55 in the source). -/
structure ResolutionSignals where
  hitl_amount_threshold : Option ℚ
  low_confidence_threshold : Option ℚ
  env_hitl_amount_threshold : ℚ
  env_low_confidence_threshold : ℚ

/-- `_resolve_hitl_amount_threshold`. -/
def resolve_hitl_amount_threshold (signals : ResolutionSignals) : ℚ :=
  signals.hitl_amount_threshold.getD signals.env_hitl_amount_threshold

/-- `_resolve_low_confidence_threshold`. -/
def resolve_low_confidence_threshold (signals : ResolutionSignals) : ℚ :=
  signals.low_confidence_threshold.getD signals.env_low_confidence_threshold

/-- `CaseInput` (the fields the resolution stage reads). -/
structure CaseInput where
  case_id : String
  customer_id : String
  order_id : String

/-- A case state in which the triage and context outputs are present (the
assertions at the head of each resolution helper). -/
structure CaseCore where
  input : CaseInput
  triage : TriageOutput
  context : ContextOutput

/-- First-seen-order deduplication of the reason list. -/
def dedup_go : List String → List String → List String
  | deduped, [] => deduped
  | deduped, reason :: rest =>
    dedup_go (if reason ∈ deduped then deduped else deduped ++ [reason]) rest

/-- Deduplicate, keeping first occurrences in order. -/
def dedup_first (l : List String) : List String :=
  dedup_go [] l

/-- `_evaluate_hitl`: each rule independently appends its reason code;
the result is the deduplicated reason list and whether it is non-empty. -/
def evaluate_hitl (st : CaseCore) (proposed_decision : DecisionType)
    (combined_confidence : ℚ) (signals : ResolutionSignals) : Bool × List String :=
  let t := st.triage
  let ctx := st.context
  let order_total := ctx.order_total
  let recent_escalations_count := ctx.recent_escalations_count
  let repeat_claim_suspected := ctx.repeat_claim_suspected
  let comp_total_90d := ctx.ninety_day_compensation_total
  let policy_text := policy_text_of ctx
  let amount_threshold := resolve_hitl_amount_threshold signals
  let low_conf_threshold := resolve_low_confidence_threshold signals
  let reasons :=
    (if RiskFlag.LEGAL_THREAT ∈ t.risk_flags ∨ RiskFlag.PUBLIC_EXPOSURE ∈ t.risk_flags then
      ["LEGAL_OR_PUBLIC_RISK"] else []) ++
    (if RiskFlag.HIGH_AMOUNT_RISK ∈ t.risk_flags ∨ order_total ≥ amount_threshold then
      ["HIGH_AMOUNT_RISK"] else []) ++
    (if RiskFlag.REPEAT_CLAIM ∈ t.risk_flags ∨ repeat_claim_suspected = true ∨
        recent_escalations_count > 0 then
      ["REPETITION_RISK"] else []) ++
    (if combined_confidence < low_conf_threshold then ["LOW_CONFIDENCE"] else []) ++
    (if contains_any policy_text
        ["human review", "revue humaine", "before execution", "specialiste"] then
      ["POLICY_REVIEW_REQUIRED"] else []) ++
    (if (proposed_decision = DecisionType.REFUND ∨ proposed_decision = DecisionType.VOUCHER) ∧
        comp_total_90d ≥ 75 then
      ["HIGH_RECENT_COMPENSATION_TOTAL"] else [])
  let deduped := dedup_first reasons
  (decide (0 < deduped.length), deduped)

/-- The ticket payload built by `build_ticket_payload`. -/
structure TicketPayload where
  case_id : String
  customer_id : String
  order_id : String
  decision : String
  urgency : String
  risk_flags : List String
  hitl_reason : String

/-- `build_ticket_payload`. -/
def build_ticket_payload (st : CaseCore) (decision : DecisionType)
    (hitl_reason : Option String) : TicketPayload :=
  { case_id := st.input.case_id
    customer_id := st.input.customer_id
    order_id := st.input.order_id
    decision := decision.value
    urgency := st.triage.urgency.value
    risk_flags := st.triage.risk_flags.map RiskFlag.value
    hitl_reason := hitl_reason.getD "" }

/-- The payload of one `call_tool` invocation made by `_execute_actions`. -/
inductive ToolPayload where
  | issueRefund (order_id : String) (amount : ℚ) (currency : String)
  | createCompensation (case_id ty : String) (value : ℚ) (currency : String)
  | createSupportTicket (case_payload : TicketPayload) (priority : String)

/-- A `ToolActionRecord` (the uuid-derived reference id is produced by an
abstract generator; the human-readable confirmation message, an f-string
echoing the same fields, is not modelled). -/
structure ToolActionRecord where
  tool_name : String
  status : String
  reference_id : String

/-- Python truthiness of an optional string (`None` and `""` are falsy). -/
def opt_str_truthy : Option String → Bool
  | none => false
  | some s => !decide (s = "")

/-- `_execute_actions`: the tool calls made and records built for a final
decision.  The mock tool backends return fixed statuses (`ISSUED`,
`CREATED`, `OPEN`); their uuid5-derived ids are modelled by the abstract
generator `idGen`. -/
def execute_actions (st : CaseCore) (decision : DecisionType)
    (hitl_reason : Option String) (idGen : ToolPayload → String) :
    List (ToolPayload × ToolActionRecord) :=
  let order_total := st.context.order_total
  let currency := if py_upper st.context.currency = "" then "EUR" else py_upper st.context.currency
  if decision = DecisionType.REFUND then
    let p := ToolPayload.issueRefund st.input.order_id (round2 (max order_total 0)) currency
    [(p, { tool_name := "issue_refund", status := "ISSUED", reference_id := idGen p })]
  else if decision = DecisionType.VOUCHER then
    let voucher_value := compute_voucher_value st.context
    let p := ToolPayload.createCompensation st.input.case_id "VOUCHER" voucher_value currency
    [(p, { tool_name := "create_compensation", status := "CREATED", reference_id := idGen p })]
  else if decision = DecisionType.EXCHANGE ∨ decision = DecisionType.ESCALATE then
    let priority :=
      if st.triage.urgency = UrgencyLevel.HIGH ∨ st.triage.urgency = UrgencyLevel.CRITICAL then
        st.triage.urgency.value
      else "MEDIUM"
    let p := ToolPayload.createSupportTicket (build_ticket_payload st decision hitl_reason) priority
    [(p, { tool_name := "create_support_ticket", status := "OPEN", reference_id := idGen p })]
  else []

/-- `make_fallback_email`: the fixed bilingual fallback template. -/
def make_fallback_email (language : ResponseLanguage) (case_id : String)
    (hitl_reason : Option String) : String × String :=
  let subject :=
    if language = ResponseLanguage.FR then "Mise a jour de votre dossier " ++ case_id
    else "Update on your case " ++ case_id
  let body :=
    if language = ResponseLanguage.FR then
      "Bonjour,\n\nMerci pour votre message. Votre demande a ete transmise a un specialiste pour revue prioritaire.\nNous reviendrons vers vous rapidement avec une resolution claire.\n\nCordialement,\nSupport Client"
    else
      "Hello,\n\nThank you for your message. Your request has been sent to a specialist for priority review.\nWe will follow up shortly with a clear resolution.\n\nBest regards,\nCustomer Support"
  let body :=
    if opt_str_truthy hitl_reason then body ++ "\n\nReference: manual review required."
    else body
  (subject, body)

/-- The structured draft returned by the external model call (string
coercions with defaults on the raw response are absorbed into the field
types; the numeric confidence stays raw for `coerce_confidence`). -/
structure ModelOutput where
  rationale : String
  resolution_confidence : PyNumber
  response_subject : String
  response_body : String

/-- The proposed decision of the scorer for a case. -/
def proposed_decision_of (st : CaseCore) : DecisionType :=
  pick_best_decision (score_options st.triage st.context).toList

/-- The blended strategy confidence for a case. -/
def strategy_confidence_of (st : CaseCore) : ℚ :=
  score_to_confidence ((score_options st.triage st.context).get (proposed_decision_of st))
    st.triage.triage_confidence st.context.context_confidence

/-- The HITL verdict for a case, evaluated against the proposed decision. -/
def hitl_of (st : CaseCore) (signals : ResolutionSignals) : Bool × List String :=
  evaluate_hitl st (proposed_decision_of st) (strategy_confidence_of st) signals

/-- The pre-guard final decision: ESCALATE if HITL is required, else the
scorer's proposed decision. -/
def pre_guard_decision_of (st : CaseCore) (signals : ResolutionSignals) : DecisionType :=
  if (hitl_of st signals).1 then DecisionType.ESCALATE else proposed_decision_of st

/-- `ResolutionOutput`. -/
structure ResolutionOutput where
  decision : DecisionType
  rationale : String
  hitl_required : Bool
  hitl_reason : Option String
  tool_actions : List ToolActionRecord
  response_subject : String
  response_body : String
  resolution_confidence : ℚ

/-- The state written back by `run_resolution`, together with the trace of
tool calls made. -/
structure ResolutionResult where
  resolution : ResolutionOutput
  output_guard_passed : Bool
  tool_calls : List ToolPayload

/-- `run_resolution` after a successful external draft call (the draft is
the `mo` argument; a network failure of that call is a fatal error one
step earlier and produces no `ResolutionOutput` at all). -/
def run_resolution (input : CaseInput) (triage : Option TriageOutput)
    (context : Option ContextOutput) (mo : ModelOutput)
    (signals : ResolutionSignals) (idGen : ToolPayload → String) :
    Except String ResolutionResult :=
  match triage, context with
  | none, _ => .error "Triage output is required before running resolution agent."
  | some _, none => .error "Context output is required before running resolution agent."
  | some t, some c =>
    let st : CaseCore := ⟨input, t, c⟩
    let hitl_required := (hitl_of st signals).1
    let hitl_reasons := (hitl_of st signals).2
    let hitl_reason : Option String :=
      if hitl_reasons.isEmpty then none else some (String.intercalate "; " hitl_reasons)
    let decision := pre_guard_decision_of st signals
    match coerce_confidence mo.resolution_confidence "resolution_confidence" with
    | .error e => .error e
    | .ok model_confidence =>
      let model_rationale :=
        if py_strip mo.rationale = "" then
          "Decision selected using complaint context, policy constraints, and risk controls."
        else py_strip mo.rationale
      let resolution_confidence :=
        round2 ((strategy_confidence_of st + model_confidence) / 2)
      let fb := make_fallback_email t.response_language input.case_id hitl_reason
      let response_subject :=
        if py_strip mo.response_subject = "" then fb.1 else py_strip mo.response_subject
      let response_body :=
        if py_strip mo.response_body = "" then fb.2 else py_strip mo.response_body
      let guard := apply_output_guard response_subject.toList response_body.toList true
      let final_decision := if guard.passed then decision else DecisionType.ESCALATE
      let pre_net_hitl_required := if guard.passed then hitl_required else true
      let fallback_reason_str :=
        String.intercalate "; "
          (if "OUTPUT_GUARD_FALLBACK" ∈ hitl_reasons then hitl_reasons
           else hitl_reasons ++ ["OUTPUT_GUARD_FALLBACK"])
      let pre_net_hitl_reason :=
        if guard.passed then hitl_reason else some fallback_reason_str
      let fb2 := make_fallback_email t.response_language input.case_id (some fallback_reason_str)
      let final_subject := if guard.passed then String.mk guard.sanitized_subject else fb2.1
      let final_body := if guard.passed then String.mk guard.sanitized_body else fb2.2
      let final_rationale :=
        if guard.passed then model_rationale
        else model_rationale ++ " Output guard fallback forced escalation to manual review."
      let final_hitl_required :=
        if final_decision = DecisionType.ESCALATE ∧ pre_net_hitl_required = false then true
        else pre_net_hitl_required
      let final_hitl_reason :=
        if final_decision = DecisionType.ESCALATE ∧ opt_str_truthy pre_net_hitl_reason = false then
          some "MANUAL_ESCALATION"
        else pre_net_hitl_reason
      let acts := execute_actions st final_decision final_hitl_reason idGen
      .ok
        { resolution :=
            { decision := final_decision
              rationale := final_rationale
              hitl_required := final_hitl_required
              hitl_reason := final_hitl_reason
              tool_actions := acts.map Prod.snd
              response_subject := final_subject
              response_body := final_body
              resolution_confidence := resolution_confidence }
          output_guard_passed := guard.passed
          tool_calls := acts.map Prod.fst }

/-- Well-formedness of a keyword list: every keyword is non-empty, starts
with a letter, and consists of word characters only (true of the three
violation keyword lists). -/
def kw_ok (ws : List (List Char)) : Prop :=
  ∀ w ∈ ws, w ≠ [] ∧ (w.headD 'a').isAlpha = true ∧ ∀ c ∈ w, isWordChar c = true

instance (ws : List (List Char)) : Decidable (kw_ok ws) := by
  unfold kw_ok
  infer_instance

/-- The pure whitespace normalization that subject sanitization performs on
violation-free text (collapse whitespace runs, strip). -/
def ws_normalize_subject (s : List Char) : List Char :=
  strip_ws (collapse_ws s)

/-- The pure whitespace normalization that body sanitization performs on
violation-free text (rejoin all lines, strip, collapse blank runs). -/
def ws_normalize_body (b : List Char) : List Char :=
  collapse_nl (strip_ws (join_nl (split_lines b)))

/-- A subject consisting of one brace region longer than the 600-character
bound of `TOOL_JSON_BLOB` (used to exhibit guard non-idempotence). -/
def guard_ce_subject : List Char :=
  '{' :: (List.replicate 601 ' ' ++ [':', '}'])

/-- Extract the value of a successful `Except`, with a default. -/
def except_get {ε α : Type} (d : α) : Except ε α → α
  | .ok v => v
  | .error _ => d

/-- A concrete case input used by the witnesses. -/
def wit_input : CaseInput :=
  { case_id := "CASE-1", customer_id := "CUST-1", order_id := "ORD-1" }

/-- A concrete triage output (with a legal threat) used by the witnesses. -/
def wit_triage : TriageOutput :=
  { complaint_type := "LEGAL_COMPLAINT", sentiment := SentimentLabel.NEGATIVE,
    urgency := UrgencyLevel.HIGH, response_language := ResponseLanguage.EN,
    risk_flags := [RiskFlag.LEGAL_THREAT], triage_confidence := 9 / 10 }

/-- A concrete context output used by the witnesses. -/
def wit_context : ContextOutput :=
  { order_status := "DELIVERED", order_total := 120, currency := "EUR",
    fraud_watch := false, ninety_day_compensation_total := 0,
    repeat_claim_suspected := false, recent_escalations_count := 0,
    policy_constraints := ["Refund is allowed for defective items."],
    context_confidence := 88 / 100 }

/-- The concrete case core used by the witnesses. -/
def wit_core : CaseCore :=
  ⟨wit_input, wit_triage, wit_context⟩

/-- Concrete resolution signals (source defaults) used by the witnesses. -/
def wit_signals : ResolutionSignals :=
  { hitl_amount_threshold := none, low_confidence_threshold := none,
    env_hitl_amount_threshold := 150, env_low_confidence_threshold := 55 / 100 }

/-- A concrete, guard-clean model draft used by the witnesses. -/
def wit_model : ModelOutput :=
  { rationale := "Escalating for specialist review.",
    resolution_confidence := PyNumber.num (9 / 10),
    response_subject := "Update on your case",
    response_body := "We are reviewing your request and will follow up." }

/-- A trivial resolution result, used as the default of `except_get`. -/
def wit_dummy_result : ResolutionResult :=
  { resolution :=
      { decision := DecisionType.INFO_ONLY, rationale := "",
        hitl_required := false, hitl_reason := none, tool_actions := [],
        response_subject := "", response_body := "", resolution_confidence := 0 }
    output_guard_passed := false
    tool_calls := [] }

/-- A concrete id generator used by the witnesses. -/
def wit_idGen : ToolPayload → String :=
  fun _ => "REF-1"

/-! Helper lemmas about the rounding model. -/

theorem roundHalfEven_ge_floor (q : ℚ) : ⌊q⌋ ≤ roundHalfEven q := by
  unfold roundHalfEven
  dsimp only
  split_ifs <;> omega

theorem roundHalfEven_le_ceil (q : ℚ) : roundHalfEven q ≤ ⌊q⌋ + 1 := by
  unfold roundHalfEven
  dsimp only
  split_ifs <;> omega

theorem roundHalfEven_mono {a b : ℚ} (hab : a ≤ b) :
    roundHalfEven a ≤ roundHalfEven b := by
  rcases lt_or_le ⌊a⌋ ⌊b⌋ with hf | hf
  · have h1 := roundHalfEven_le_ceil a
    have h2 := roundHalfEven_ge_floor b
    omega
  · have hfe : ⌊a⌋ = ⌊b⌋ := le_antisymm (Int.floor_le_floor hab) hf
    have hfa : ((⌊a⌋ : ℤ) : ℚ) ≤ a := Int.floor_le a
    unfold roundHalfEven
    dsimp only
    rw [hfe]
    split_ifs <;> first | omega | linarith

theorem round2_mono {a b : ℚ} (hab : a ≤ b) : round2 a ≤ round2 b := by
  unfold round2
  have h1 : roundHalfEven (100 * a) ≤ roundHalfEven (100 * b) :=
    roundHalfEven_mono (by linarith)
  have h2 : ((roundHalfEven (100 * a) : ℤ) : ℚ) ≤ ((roundHalfEven (100 * b) : ℤ) : ℚ) := by
    exact_mod_cast h1
  linarith

theorem round2_intRep (n : ℤ) (q : ℚ) (h : (n : ℚ) = 100 * q) : round2 q = q := by
  unfold round2 roundHalfEven
  rw [← h]
  have hfl : ⌊(n : ℚ)⌋ = n := Int.floor_intCast n
  dsimp only
  rw [hfl]
  have hz : (n : ℚ) - (n : ℚ) = 0 := by ring
  rw [hz]
  norm_num
  linarith

/-- C10: for every context, the computed voucher value lies in
[7.5, 60]: the clamp makes the base at least 10, the 0.75 penalty can
lower it to at most 7.5, and the final floor of 5 is never binding. -/
theorem compute_voucher_value_bounds (ctx : ContextOutput) :
    (15 / 2 : ℚ) ≤ compute_voucher_value ctx ∧ compute_voucher_value ctx ≤ 60 := by
  unfold compute_voucher_value
  dsimp only
  have hlo : (10 : ℚ) ≤ max 10 (min (ctx.order_total * (18 / 100)) 60) := le_max_left _ _
  have hhi : max (10 : ℚ) (min (ctx.order_total * (18 / 100)) 60) ≤ 60 :=
    max_le (by norm_num) (min_le_right _ _)
  have h75 : round2 (15 / 2) = 15 / 2 := round2_intRep 750 _ (by norm_num)
  have h60 : round2 (60) = 60 := round2_intRep 6000 _ (by norm_num)
  split_ifs with hc
  · constructor
    · calc (15 / 2 : ℚ) = round2 (15 / 2) := h75.symm
        _ ≤ round2 (max (max 10 (min (ctx.order_total * (18 / 100)) 60) * (75 / 100)) 5) := by
            apply round2_mono
            have : (15 / 2 : ℚ) ≤ max 10 (min (ctx.order_total * (18 / 100)) 60) * (75 / 100) := by
              linarith
            calc (15 / 2 : ℚ) ≤ _ := this
              _ ≤ _ := le_max_left _ _
    · calc round2 (max (max 10 (min (ctx.order_total * (18 / 100)) 60) * (75 / 100)) 5)
          ≤ round2 60 := by
            apply round2_mono
            apply max_le (by linarith) (by norm_num)
        _ = 60 := h60
  · constructor
    · calc (15 / 2 : ℚ) = round2 (15 / 2) := h75.symm
        _ ≤ round2 (max (max 10 (min (ctx.order_total * (18 / 100)) 60)) 5) := by
            apply round2_mono
            calc (15 / 2 : ℚ) ≤ max 10 (min (ctx.order_total * (18 / 100)) 60) := by linarith
              _ ≤ _ := le_max_left _ _
    · calc round2 (max (max 10 (min (ctx.order_total * (18 / 100)) 60)) 5)
          ≤ round2 60 := by
            apply round2_mono
            apply max_le hhi (by norm_num)
        _ = 60 := h60

/-- C6: a VOUCHER decision produces exactly one tool call, a compensation
creation whose value is 18% of the order total clamped to [10, 60],
reduced by the 0.75 factor when the 90-day compensation total is at least
50, floored at 5 and rounded to two decimals; at order_total = 70 and a
90-day total of 10 the value is 12.6. -/
theorem voucher_action_value (st : CaseCore) (hitl_reason : Option String)
    (idGen : ToolPayload → String) :
    (execute_actions st DecisionType.VOUCHER hitl_reason idGen).map Prod.fst =
      [ToolPayload.createCompensation st.input.case_id "VOUCHER"
        (round2 (max
          (if st.context.ninety_day_compensation_total ≥ 50 then
            max 10 (min (st.context.order_total * (18 / 100)) 60) * (75 / 100)
          else max 10 (min (st.context.order_total * (18 / 100)) 60)) 5))
        (if py_upper st.context.currency = "" then "EUR" else py_upper st.context.currency)] ∧
    compute_voucher_value
      { order_status := "DELIVERED", order_total := 70, currency := "EUR",
        fraud_watch := false, ninety_day_compensation_total := 10,
        repeat_claim_suspected := false, recent_escalations_count := 0,
        policy_constraints := [], context_confidence := 9 / 10 } = 63 / 5 := by
  constructor
  · simp only [execute_actions, compute_voucher_value]
    rw [if_neg (by decide)]
    simp
  · unfold compute_voucher_value
    norm_num
    exact round2_intRep 1260 _ (by norm_num)

/-- C3 counterexample: an out-of-range numeric confidence (1.5) is clamped
to 1.0 and an unrecognized risk-flag string is silently dropped; neither
coercion raises, contradicting the claim that such validation errors are
fatal. -/
theorem coercion_not_fatal_counterexample :
    coerce_confidence (PyNumber.num (3 / 2)) "resolution_confidence" = Except.ok 1 ∧
    coerce_risk_flags (RiskFlagsRaw.items ["TOTALLY_UNKNOWN_FLAG"]) = Except.ok [] := by
  constructor
  · unfold coerce_confidence
    norm_num
  · rfl

/-- C3 (amended): the coercion functions raise only on structurally
invalid input — a non-numeric confidence or a non-list `risk_flags`, and
an unrecognized sentiment string; an out-of-range numeric confidence is
clamped to the violated bound instead of raising, and a list of risk-flag
strings never raises (unknown entries are dropped). -/
theorem coercion_validation_behavior :
    (∀ (q : ℚ) (fn : String), 1 < q → coerce_confidence (PyNumber.num q) fn = Except.ok 1) ∧
    (∀ (q : ℚ) (fn : String), q < 0 → coerce_confidence (PyNumber.num q) fn = Except.ok 0) ∧
    (∀ (shown fn : String), coerce_confidence (PyNumber.notNumeric shown) fn =
      Except.error ("Invalid " ++ fn ++ " from Mistral: " ++ shown)) ∧
    (∀ (shown : String), coerce_risk_flags (RiskFlagsRaw.notList shown) =
      Except.error "risk_flags must be a list in Mistral triage output.") ∧
    (∀ items : List String, ∃ flags, coerce_risk_flags (RiskFlagsRaw.items items) =
      Except.ok flags) ∧
    (∀ raw : String,
      py_upper (py_strip raw) ≠ "NEGATIVE" → py_upper (py_strip raw) ≠ "POSITIVE" →
      py_upper (py_strip raw) ≠ "NEUTRAL" →
      coerce_sentiment raw = Except.error ("Invalid sentiment from Mistral: " ++ raw)) := by
  refine ⟨?_, ?_, ?_, ?_, ?_, ?_⟩
  · intro q fn hq
    unfold coerce_confidence
    dsimp only
    rw [if_neg (by linarith), if_pos hq]
  · intro q fn hq
    unfold coerce_confidence
    dsimp only
    rw [if_pos hq]
  · intro shown fn
    rfl
  · intro shown
    rfl
  · intro items
    exact ⟨_, rfl⟩
  · intro raw h1 h2 h3
    unfold coerce_sentiment
    dsimp only
    rw [if_neg h1, if_neg h2, if_neg h3]

/-- Witness for the amended C3 at concrete inputs: 2.0 is clamped to 1,
-0.5 is clamped to 0, non-numeric input and a non-list raise, a list never
raises, and the sentiment string "ANGRY" raises. -/
theorem coercion_validation_behavior_witness :
    coerce_confidence (PyNumber.num 2) "triage_confidence" = Except.ok 1 ∧
    coerce_confidence (PyNumber.num (-(1 / 2))) "triage_confidence" = Except.ok 0 ∧
    coerce_confidence (PyNumber.notNumeric "abc") "triage_confidence" =
      Except.error ("Invalid " ++ "triage_confidence" ++ " from Mistral: " ++ "abc") ∧
    coerce_risk_flags (RiskFlagsRaw.notList "5") =
      Except.error "risk_flags must be a list in Mistral triage output." ∧
    (∃ flags, coerce_risk_flags (RiskFlagsRaw.items ["LEGAL_THREAT", "NOT_A_FLAG"]) =
      Except.ok flags) ∧
    coerce_sentiment "ANGRY" = Except.error ("Invalid sentiment from Mistral: " ++ "ANGRY") := by
  refine ⟨?_, ?_, ?_, ?_, ?_, ?_⟩
  · exact coercion_validation_behavior.1 2 "triage_confidence" (by norm_num)
  · exact coercion_validation_behavior.2.1 (-(1 / 2)) "triage_confidence" (by norm_num)
  · exact coercion_validation_behavior.2.2.1 "abc" "triage_confidence"
  · exact coercion_validation_behavior.2.2.2.1 "5"
  · exact coercion_validation_behavior.2.2.2.2.1 ["LEGAL_THREAT", "NOT_A_FLAG"]
  · exact coercion_validation_behavior.2.2.2.2.2 "ANGRY" (by decide) (by decide) (by decide)

/-- C1: `apply_output_guard` never returns `passed = true` with text that
still matches a violation pattern: whenever the result passes, searching
the returned sanitized subject and body finds no violation; equivalently,
if even the sanitized text matches some pattern the guard reports
`passed = false`. -/
theorem apply_output_guard_containment (subject body : List Char)
    (attempt_sanitize : Bool)
    (h : (apply_output_guard subject body attempt_sanitize).passed = true) :
    find_violations
      (apply_output_guard subject body attempt_sanitize).sanitized_subject
      (apply_output_guard subject body attempt_sanitize).sanitized_body = [] := by
  unfold apply_output_guard evaluate_output_guard at h ⊢
  by_cases h1 : (find_violations subject body).isEmpty = true
  · simpa [h1] using List.isEmpty_iff.mp h1
  · cases attempt_sanitize with
    | false => simp [h1] at h
    | true =>
      by_cases h3 :
          (find_violations
            (sanitize_customer_email subject body).1
            (sanitize_customer_email subject body).2).isEmpty = true
      · simpa [h1, h3] using List.isEmpty_iff.mp h3
      · simp [h1, h3] at h

set_option maxHeartbeats 2000000 in
set_option maxRecDepth 4000 in
/-- Witness for C1 at a concrete input: a subject containing an internal
score keyword is sanitized and the result passed by the guard carries no
violation. -/
theorem apply_output_guard_containment_witness :
    (apply_output_guard "score 0.9".toList "Hello there".toList true).passed = true ∧
    find_violations
      (apply_output_guard "score 0.9".toList "Hello there".toList true).sanitized_subject
      (apply_output_guard "score 0.9".toList "Hello there".toList true).sanitized_body = [] := by
  refine ⟨by decide, apply_output_guard_containment _ _ _ (by decide)⟩

/-- The required flag of the HITL evaluator is the non-emptiness of its
deduplicated reason list (stepping stone for the safety-net lemmas). -/
theorem evaluate_hitl_required_iff (st : CaseCore) (p : DecisionType) (cc : ℚ)
    (sig : ResolutionSignals) :
    (evaluate_hitl st p cc sig).1 = true ↔ (evaluate_hitl st p cc sig).2 ≠ [] := by
  unfold evaluate_hitl
  dsimp only
  rw [decide_eq_true_eq]
  exact List.length_pos

/-- C4: the HITL evaluator reports `required = true` exactly when its
deduplicated reason list is non-empty, and whenever it reports
`required = true` the orchestrator's pre-guard decision is ESCALATE,
whatever the scorer proposed. -/
theorem hitl_required_iff_and_escalate_override :
    (∀ (st : CaseCore) (p : DecisionType) (cc : ℚ) (sig : ResolutionSignals),
      (evaluate_hitl st p cc sig).1 = true ↔ (evaluate_hitl st p cc sig).2 ≠ []) ∧
    (∀ (st : CaseCore) (sig : ResolutionSignals),
      (hitl_of st sig).1 = true → pre_guard_decision_of st sig = DecisionType.ESCALATE) := by
  constructor
  · exact evaluate_hitl_required_iff
  · intro st sig h
    unfold pre_guard_decision_of
    rw [if_pos h]

set_option maxRecDepth 4000 in
set_option maxHeartbeats 2000000 in
/-- Witness for C4 at the concrete legal-threat case: required is true, the
reason list is non-empty, and the pre-guard decision is ESCALATE. -/
theorem hitl_required_iff_and_escalate_override_witness :
    (evaluate_hitl wit_core DecisionType.REFUND (9 / 10) wit_signals).1 = true ∧
    (evaluate_hitl wit_core DecisionType.REFUND (9 / 10) wit_signals).2 ≠ [] ∧
    (hitl_of wit_core wit_signals).1 = true ∧
    pre_guard_decision_of wit_core wit_signals = DecisionType.ESCALATE := by
  refine ⟨by decide, ?_, by decide,
    hitl_required_iff_and_escalate_override.2 wit_core wit_signals (by decide)⟩
  exact (hitl_required_iff_and_escalate_override.1 wit_core DecisionType.REFUND
    (9 / 10) wit_signals).mp (by decide)

/-- The safety-net rewrite for the hitl_required flag. -/
theorem safety_net_required (dec : DecisionType) (r : Bool)
    (hdec : dec = DecisionType.ESCALATE) :
    (if dec = DecisionType.ESCALATE ∧ r = false then true else r) = true := by
  subst hdec
  cases r <;> simp

/-- The safety-net rewrite for the hitl_reason field. -/
theorem safety_net_reason (dec : DecisionType) (reason : Option String)
    (hdec : dec = DecisionType.ESCALATE) :
    opt_str_truthy
      (if dec = DecisionType.ESCALATE ∧ opt_str_truthy reason = false then
        some "MANUAL_ESCALATION"
      else reason) = true := by
  subst hdec
  cases hr : opt_str_truthy reason
  · rw [if_pos ⟨rfl, rfl⟩]
    decide
  · rw [if_neg (by simp)]
    exact hr

/-- C5: on every path of `run_resolution` (guard passed, sanitized, or
fallback), if the produced resolution's decision is ESCALATE then
`hitl_required` is true and `hitl_reason` is a truthy string (defaulting to
`MANUAL_ESCALATION`). -/
theorem run_resolution_escalate_forces_hitl (input : CaseInput)
    (triage : Option TriageOutput) (context : Option ContextOutput)
    (mo : ModelOutput) (signals : ResolutionSignals) (idGen : ToolPayload → String)
    (res : ResolutionResult)
    (h : run_resolution input triage context mo signals idGen = Except.ok res)
    (hdec : res.resolution.decision = DecisionType.ESCALATE) :
    res.resolution.hitl_required = true ∧
    opt_str_truthy res.resolution.hitl_reason = true := by
  unfold run_resolution at h
  cases triage with
  | none => cases h
  | some t =>
    cases context with
    | none => cases h
    | some c =>
      dsimp only at h
      cases hc : coerce_confidence mo.resolution_confidence "resolution_confidence" with
      | error e => rw [hc] at h; cases h
      | ok mc =>
        rw [hc] at h
        dsimp only at h
        rw [Except.ok.injEq] at h
        subst h
        dsimp only at hdec ⊢
        exact ⟨safety_net_required _ _ hdec, safety_net_reason _ _ hdec⟩

set_option maxRecDepth 8000 in
set_option maxHeartbeats 4000000 in
/-- Witness for C5: the concrete legal-threat case resolves successfully
with decision ESCALATE, and both the required flag and a truthy reason are
present. -/
theorem run_resolution_escalate_forces_hitl_witness :
    run_resolution wit_input (some wit_triage) (some wit_context) wit_model
        wit_signals wit_idGen =
      Except.ok (except_get wit_dummy_result
        (run_resolution wit_input (some wit_triage) (some wit_context) wit_model
          wit_signals wit_idGen)) ∧
    (except_get wit_dummy_result
        (run_resolution wit_input (some wit_triage) (some wit_context) wit_model
          wit_signals wit_idGen)).resolution.decision = DecisionType.ESCALATE ∧
    ((except_get wit_dummy_result
        (run_resolution wit_input (some wit_triage) (some wit_context) wit_model
          wit_signals wit_idGen)).resolution.hitl_required = true ∧
      opt_str_truthy (except_get wit_dummy_result
        (run_resolution wit_input (some wit_triage) (some wit_context) wit_model
          wit_signals wit_idGen)).resolution.hitl_reason = true) := by
  have h1 : run_resolution wit_input (some wit_triage) (some wit_context) wit_model
      wit_signals wit_idGen =
      Except.ok (except_get wit_dummy_result
        (run_resolution wit_input (some wit_triage) (some wit_context) wit_model
          wit_signals wit_idGen)) := by
    rfl
  have h2 : (except_get wit_dummy_result
      (run_resolution wit_input (some wit_triage) (some wit_context) wit_model
        wit_signals wit_idGen)).resolution.decision = DecisionType.ESCALATE := by
    rfl
  exact ⟨h1, h2, run_resolution_escalate_forces_hitl _ _ _ _ _ _ _ h1 h2⟩

/-- A conditional delta with nonnegative branches is nonnegative. -/
theorem ite_ge_zero {c : Prop} [Decidable c] {a b : ℚ} (ha : 0 ≤ a) (hb : 0 ≤ b) :
    0 ≤ if c then a else b := by
  split <;> assumption

/-- A conditional delta is bounded by the larger of its branches. -/
theorem ite_le_bound {c : Prop} [Decidable c] {a b m : ℚ} (ha : a ≤ m) (hb : b ≤ m) :
    (if c then a else b) ≤ m := by
  split <;> assumption

/-- With a legal or public-exposure risk flag, the raw ESCALATE score is at
least 106. -/
theorem escalate_score_ge (t : TriageOutput) (ctx : ContextOutput)
    (h : RiskFlag.LEGAL_THREAT ∈ t.risk_flags ∨ RiskFlag.PUBLIC_EXPOSURE ∈ t.risk_flags) :
    106 ≤ escalate_score t ctx := by
  unfold escalate_score
  dsimp only
  rw [if_pos h]
  have h1 : (0:ℚ) ≤ if isPublicLegalCategory (normalize_text t.complaint_type) then 55 else 0 :=
    ite_ge_zero (by norm_num) le_rfl
  have h2 : (0:ℚ) ≤ if t.urgency = UrgencyLevel.CRITICAL then 20 else 0 :=
    ite_ge_zero (by norm_num) le_rfl
  have h3 : (0:ℚ) ≤ if ctx.fraud_watch = true then 30 else 0 :=
    ite_ge_zero (by norm_num) le_rfl
  have h4 : (0:ℚ) ≤ if ctx.repeat_claim_suspected = true then 16 else 0 :=
    ite_ge_zero (by norm_num) le_rfl
  have h5 : (0:ℚ) ≤ if ctx.ninety_day_compensation_total ≥ 60 then 8 else 0 :=
    ite_ge_zero (by norm_num) le_rfl
  have h6 : (0:ℚ) ≤ if ctx.order_total ≥ 200 then 8 else 0 :=
    ite_ge_zero (by norm_num) le_rfl
  have h7 : (0:ℚ) ≤ if contains_any (policy_text_of ctx)
      ["human review", "revue humaine", "specialist", "escalation"] = true then 12 else 0 :=
    ite_ge_zero (by norm_num) le_rfl
  have h8 : (0:ℚ) ≤ if RiskFlag.REPEAT_CLAIM ∈ t.risk_flags then 18 else 0 :=
    ite_ge_zero (by norm_num) le_rfl
  have h9 : (0:ℚ) ≤ if RiskFlag.HIGH_AMOUNT_RISK ∈ t.risk_flags then 14 else 0 :=
    ite_ge_zero (by norm_num) le_rfl
  linarith

/-- The raw INFO_ONLY score is at most 60. -/
theorem info_only_score_le (t : TriageOutput) (ctx : ContextOutput) :
    info_only_score t ctx ≤ 60 := by
  unfold info_only_score
  dsimp only
  have h1 : (if isDeliveryCategory (normalize_text t.complaint_type) then (30:ℚ) else 0) ≤ 30 :=
    ite_le_bound le_rfl (by norm_num)
  have h2 : (if normalize_text ctx.order_status = "IN_TRANSIT" then (15:ℚ)
      else if normalize_text ctx.order_status ≠ "DELIVERED" then 8 else 0) ≤ 15 :=
    ite_le_bound le_rfl (ite_le_bound (by norm_num) (by norm_num))
  linarith

/-- The raw VOUCHER score is at most 54. -/
theorem voucher_score_le (t : TriageOutput) (ctx : ContextOutput) :
    voucher_score t ctx ≤ 54 := by
  unfold voucher_score
  dsimp only
  have h1 : (if isDefectCategory (normalize_text t.complaint_type) then (8:ℚ) else 0) ≤ 8 :=
    ite_le_bound le_rfl (by norm_num)
  have h2 : (if isDeliveryCategory (normalize_text t.complaint_type) then (20:ℚ) else 0) ≤ 20 :=
    ite_le_bound le_rfl (by norm_num)
  have h3 : (if t.urgency = UrgencyLevel.HIGH ∨ t.urgency = UrgencyLevel.CRITICAL then (7:ℚ) else 0) ≤ 7 :=
    ite_le_bound le_rfl (by norm_num)
  have h4 : (if ctx.fraud_watch = true then (-12:ℚ) else 0) ≤ 0 :=
    ite_le_bound (by norm_num) le_rfl
  have h5 : (if ctx.repeat_claim_suspected = true then (-12:ℚ) else 0) ≤ 0 :=
    ite_le_bound (by norm_num) le_rfl
  have h6 : (if ctx.ninety_day_compensation_total ≥ 60 then (-16:ℚ) else 0) ≤ 0 :=
    ite_le_bound (by norm_num) le_rfl
  have h7 : (if contains_any (policy_text_of ctx) ["compensation", "voucher", "bon"] = true
      then (7:ℚ) else 0) ≤ 7 :=
    ite_le_bound le_rfl (by norm_num)
  linarith

/-- The raw REFUND score is at most 87. -/
theorem refund_score_le (t : TriageOutput) (ctx : ContextOutput) :
    refund_score t ctx ≤ 87 := by
  unfold refund_score
  dsimp only
  have h1 : (if isDefectCategory (normalize_text t.complaint_type) then (45:ℚ) else 0) ≤ 45 :=
    ite_le_bound le_rfl (by norm_num)
  have h2 : (if isWrongItemCategory (normalize_text t.complaint_type) then (22:ℚ) else 0) ≤ 22 :=
    ite_le_bound le_rfl (by norm_num)
  have h3 : (if normalize_text ctx.order_status = "IN_TRANSIT" then (-18:ℚ)
      else if normalize_text ctx.order_status ≠ "DELIVERED" then -8 else 0) ≤ 0 :=
    ite_le_bound (by norm_num) (ite_le_bound (by norm_num) le_rfl)
  have h4 : (if ctx.fraud_watch = true then (-14:ℚ) else 0) ≤ 0 :=
    ite_le_bound (by norm_num) le_rfl
  have h5 : (if ctx.ninety_day_compensation_total ≥ 60 then (-8:ℚ) else 0) ≤ 0 :=
    ite_le_bound (by norm_num) le_rfl
  have h6 : (if contains_any (policy_text_of ctx)
      ["refund is allowed", "remboursement est permis", "refund allowed"] = true
      then (10:ℚ) else 0) ≤ 10 :=
    ite_le_bound le_rfl (by norm_num)
  linarith

/-- The raw EXCHANGE score is at most 91. -/
theorem exchange_score_le (t : TriageOutput) (ctx : ContextOutput) :
    exchange_score t ctx ≤ 91 := by
  unfold exchange_score
  dsimp only
  have h1 : (if isDefectCategory (normalize_text t.complaint_type) then (28:ℚ) else 0) ≤ 28 :=
    ite_le_bound le_rfl (by norm_num)
  have h2 : (if isWrongItemCategory (normalize_text t.complaint_type) then (45:ℚ) else 0) ≤ 45 :=
    ite_le_bound le_rfl (by norm_num)
  have h3 : (if normalize_text ctx.order_status = "IN_TRANSIT" then (-12:ℚ) else 0) ≤ 0 :=
    ite_le_bound (by norm_num) le_rfl
  have h4 : (if contains_any (policy_text_of ctx) ["exchange", "echange"] = true
      then (8:ℚ) else 0) ≤ 8 :=
    ite_le_bound le_rfl (by norm_num)
  linarith

/-- If the ESCALATE entry dominates the other four scores, the tie-break
selection returns ESCALATE. -/
theorem pick_best_escalate (s : OptionScores)
    (h1 : s.info_only ≤ s.escalate) (h2 : s.voucher ≤ s.escalate)
    (h3 : s.refund ≤ s.escalate) (h4 : s.exchange ≤ s.escalate) :
    pick_best_decision s.toList = DecisionType.ESCALATE := by
  unfold pick_best_decision OptionScores.toList tie_break_order
  dsimp only
  have hmax : max_values (List.map Prod.snd
      [(DecisionType.INFO_ONLY, s.info_only), (DecisionType.VOUCHER, s.voucher),
       (DecisionType.REFUND, s.refund), (DecisionType.EXCHANGE, s.exchange),
       (DecisionType.ESCALATE, s.escalate)]) = s.escalate := by
    simp only [List.map, max_values, List.foldl]
    exact max_eq_right (max_le (max_le (max_le h1 h2) h3) h4)
  rw [hmax]
  have hmem : DecisionType.ESCALATE ∈ (List.filter (fun p => decide (p.2 = s.escalate))
      [(DecisionType.INFO_ONLY, s.info_only), (DecisionType.VOUCHER, s.voucher),
       (DecisionType.REFUND, s.refund), (DecisionType.EXCHANGE, s.exchange),
       (DecisionType.ESCALATE, s.escalate)]).map Prod.fst := by
    refine List.mem_map.mpr ⟨(DecisionType.ESCALATE, s.escalate), ?_, rfl⟩
    refine List.mem_filter.mpr ⟨by simp, by simp⟩
  simp [List.find?, hmem]

/-- Deduplication preserves the elements of the accumulator and the input. -/
theorem mem_dedup_go (a : String) :
    ∀ (l acc : List String), (a ∈ acc ∨ a ∈ l) → a ∈ dedup_go acc l := by
  intro l
  induction l with
  | nil =>
    intro acc h
    unfold dedup_go
    rcases h with h | h
    · exact h
    · cases h
  | cons x xs ih =>
    intro acc h
    unfold dedup_go
    apply ih
    by_cases hx : x ∈ acc
    · rw [if_pos hx]
      rcases h with h | h
      · exact Or.inl h
      · rcases List.mem_cons.mp h with h | h
        · exact Or.inl (h ▸ hx)
        · exact Or.inr h
    · rw [if_neg hx]
      rcases h with h | h
      · exact Or.inl (List.mem_append_left _ h)
      · rcases List.mem_cons.mp h with h | h
        · exact Or.inl (List.mem_append_right _ (h ▸ List.mem_singleton.mpr rfl))
        · exact Or.inr h

/-- C2: with a LEGAL_THREAT or PUBLIC_EXPOSURE risk flag, the scorer's best
decision is always ESCALATE (the +100 bonus dominates every other
decision's maximum attainable score), and the HITL evaluator always
includes LEGAL_OR_PUBLIC_RISK among its reasons, making `required` true. -/
theorem risk_dominance (st : CaseCore) (p : DecisionType) (cc : ℚ)
    (sig : ResolutionSignals)
    (h : RiskFlag.LEGAL_THREAT ∈ st.triage.risk_flags ∨
      RiskFlag.PUBLIC_EXPOSURE ∈ st.triage.risk_flags) :
    pick_best_decision (score_options st.triage st.context).toList =
      DecisionType.ESCALATE ∧
    "LEGAL_OR_PUBLIC_RISK" ∈ (evaluate_hitl st p cc sig).2 ∧
    (evaluate_hitl st p cc sig).1 = true := by
  have hq106 : round2 106 = 106 := round2_intRep 10600 _ (by norm_num)
  have hesc : (106:ℚ) ≤ (score_options st.triage st.context).escalate := by
    unfold score_options
    dsimp only
    calc (106:ℚ) = round2 106 := hq106.symm
      _ ≤ round2 (max (escalate_score st.triage st.context) 0) := by
          apply round2_mono
          exact le_trans (escalate_score_ge st.triage st.context h) (le_max_left _ _)
  have hfield : ∀ raw bound : ℚ, raw ≤ bound → 0 ≤ bound → bound ≤ 106 →
      round2 (max raw 0) ≤ (score_options st.triage st.context).escalate := by
    intro raw bound hraw hb0 hb106
    calc round2 (max raw 0) ≤ round2 106 := round2_mono (max_le (by linarith) (by norm_num))
      _ = 106 := hq106
      _ ≤ _ := hesc
  have hpick : pick_best_decision (score_options st.triage st.context).toList =
      DecisionType.ESCALATE := by
    apply pick_best_escalate
    · exact hfield _ 60 (info_only_score_le st.triage st.context) (by norm_num) (by norm_num)
    · exact hfield _ 54 (voucher_score_le st.triage st.context) (by norm_num) (by norm_num)
    · exact hfield _ 87 (refund_score_le st.triage st.context) (by norm_num) (by norm_num)
    · exact hfield _ 91 (exchange_score_le st.triage st.context) (by norm_num) (by norm_num)
  have hmem : "LEGAL_OR_PUBLIC_RISK" ∈ (evaluate_hitl st p cc sig).2 := by
    unfold evaluate_hitl
    dsimp only
    apply mem_dedup_go
    right
    rw [if_pos h]
    simp
  refine ⟨hpick, hmem, ?_⟩
  rw [evaluate_hitl_required_iff]
  intro hnil
  rw [hnil] at hmem
  cases hmem

set_option maxRecDepth 4000 in
set_option maxHeartbeats 2000000 in
/-- Witness for C2 at the concrete legal-threat case. -/
theorem risk_dominance_witness :
    pick_best_decision (score_options wit_triage wit_context).toList =
      DecisionType.ESCALATE ∧
    "LEGAL_OR_PUBLIC_RISK" ∈
      (evaluate_hitl wit_core DecisionType.REFUND (9 / 10) wit_signals).2 ∧
    (evaluate_hitl wit_core DecisionType.REFUND (9 / 10) wit_signals).1 = true :=
  risk_dominance wit_core DecisionType.REFUND (9 / 10) wit_signals (by decide)

/-- A left fold of `max` lands on its seed or one of the elements. -/
theorem foldl_max_mem (xs : List ℚ) (x : ℚ) : xs.foldl max x ∈ x :: xs := by
  induction xs generalizing x with
  | nil => exact List.mem_singleton.mpr rfl
  | cons y ys ih =>
    rw [List.foldl_cons]
    rcases List.mem_cons.mp (ih (max x y)) with h1 | h1
    · rcases max_choice x y with hm | hm
      · exact List.mem_cons.mpr (Or.inl (by rw [h1, hm]))
      · exact List.mem_cons.mpr (Or.inr (List.mem_cons.mpr (Or.inl (by rw [h1, hm]))))
    · exact List.mem_cons.mpr (Or.inr (List.mem_cons.mpr (Or.inr h1)))

/-- The seed is below a left fold of `max`. -/
theorem le_foldl_max_init (xs : List ℚ) (x : ℚ) : x ≤ xs.foldl max x := by
  induction xs generalizing x with
  | nil => exact le_rfl
  | cons y ys ih =>
    rw [List.foldl_cons]
    exact le_trans (le_max_left x y) (ih (max x y))

/-- Every element is below a left fold of `max`. -/
theorem le_foldl_max_mem (xs : List ℚ) (y : ℚ) (h : y ∈ xs) :
    ∀ x, y ≤ xs.foldl max x := by
  induction xs with
  | nil => cases h
  | cons z zs ih =>
    intro x
    rw [List.foldl_cons]
    rcases List.mem_cons.mp h with h1 | h1
    · subst h1
      exact le_trans (le_max_right x y) (le_foldl_max_init zs (max x y))
    · exact ih h1 (max x z)

/-- Every decision appears in the tie-break order list. -/
theorem mem_tie_break (d : DecisionType) : d ∈ tie_break_order := by
  cases d <;> simp [tie_break_order]

/-- A successful `find?` over the tie-break order returns the decision of
least priority index among those satisfying the test. -/
theorem find?_tie_break_min (p : DecisionType → Bool) (dfound : DecisionType)
    (hfound : tie_break_order.find? p = some dfound) (d : DecisionType)
    (hd : p d = true) : priorityIdx dfound ≤ priorityIdx d := by
  unfold tie_break_order at hfound
  by_cases h0 : p DecisionType.ESCALATE = true
  · rw [List.find?_cons_of_pos _ h0] at hfound
    injection hfound with hfe
    subst hfe
    simp [priorityIdx]
  · rw [List.find?_cons_of_neg _ h0] at hfound
    by_cases h1 : p DecisionType.REFUND = true
    · rw [List.find?_cons_of_pos _ h1] at hfound
      injection hfound with hfe
      subst hfe
      cases d <;> first | (exact absurd hd h0) | simp [priorityIdx]
    · rw [List.find?_cons_of_neg _ h1] at hfound
      by_cases h2 : p DecisionType.EXCHANGE = true
      · rw [List.find?_cons_of_pos _ h2] at hfound
        injection hfound with hfe
        subst hfe
        cases d <;>
          first | (exact absurd hd h0) | (exact absurd hd h1) | simp [priorityIdx]
      · rw [List.find?_cons_of_neg _ h2] at hfound
        by_cases h3 : p DecisionType.VOUCHER = true
        · rw [List.find?_cons_of_pos _ h3] at hfound
          injection hfound with hfe
          subst hfe
          cases d <;>
            first | (exact absurd hd h0) | (exact absurd hd h1) |
              (exact absurd hd h2) | simp [priorityIdx]
        · rw [List.find?_cons_of_neg _ h3] at hfound
          by_cases h4 : p DecisionType.INFO_ONLY = true
          · rw [List.find?_cons_of_pos _ h4] at hfound
            injection hfound with hfe
            subst hfe
            cases d <;>
              first | (exact absurd hd h0) | (exact absurd hd h1) |
                (exact absurd hd h2) | (exact absurd hd h3) | simp [priorityIdx]
          · rw [List.find?_cons_of_neg _ h4] at hfound
            cases hfound

/-- C7: on a non-empty score map, `pick_best_decision` returns a decision
carrying the maximum score, and among all decisions attaining the maximum
it is first in the fixed priority order
ESCALATE > REFUND > EXCHANGE > VOUCHER > INFO_ONLY. -/
theorem pick_best_decision_spec (scores : List (DecisionType × ℚ))
    (hne : scores ≠ []) :
    (∃ v, (pick_best_decision scores, v) ∈ scores ∧ ∀ p ∈ scores, p.2 ≤ v) ∧
    (∀ d v, (d, v) ∈ scores → (∀ p ∈ scores, p.2 ≤ v) →
      priorityIdx (pick_best_decision scores) ≤ priorityIdx d) := by
  have hbest_mem : max_values (scores.map Prod.snd) ∈ scores.map Prod.snd := by
    cases scores with
    | nil => exact absurd rfl hne
    | cons x xs =>
      simpa [max_values] using foldl_max_mem (xs.map Prod.snd) x.2
  have hub : ∀ p ∈ scores, p.2 ≤ max_values (scores.map Prod.snd) := by
    intro p hp
    cases scores with
    | nil => cases hp
    | cons x xs =>
      rcases List.mem_cons.mp hp with h1 | h1
      · subst h1
        simpa [max_values] using le_foldl_max_init (xs.map Prod.snd) p.2
      · simpa [max_values] using
          le_foldl_max_mem (xs.map Prod.snd) p.2 (List.mem_map_of_mem Prod.snd h1) x.2
  obtain ⟨q0, hq0_mem, hq0_eq⟩ := List.mem_map.mp hbest_mem
  have hq0C : q0.1 ∈ (scores.filter
      (fun p => decide (p.2 = max_values (scores.map Prod.snd)))).map Prod.fst :=
    List.mem_map.mpr ⟨q0, List.mem_filter.mpr ⟨hq0_mem, by simp [hq0_eq]⟩, rfl⟩
  have hsome : (tie_break_order.find? (fun d => decide (d ∈ (scores.filter
      (fun p => decide (p.2 = max_values (scores.map Prod.snd)))).map Prod.fst))).isSome :=
    List.find?_isSome.mpr ⟨q0.1, mem_tie_break _, decide_eq_true hq0C⟩
  obtain ⟨dfound, hfound⟩ := Option.isSome_iff_exists.mp hsome
  have hpick : pick_best_decision scores = dfound := by
    unfold pick_best_decision
    dsimp only
    rw [hfound]
  have hPd := List.find?_some hfound
  have hdfC : dfound ∈ (scores.filter
      (fun p => decide (p.2 = max_values (scores.map Prod.snd)))).map Prod.fst :=
    of_decide_eq_true hPd
  obtain ⟨q, hq_filter, hq1⟩ := List.mem_map.mp hdfC
  obtain ⟨hq_mem, hq2⟩ := List.mem_filter.mp hq_filter
  have hq2v : q.2 = max_values (scores.map Prod.snd) := of_decide_eq_true hq2
  constructor
  · refine ⟨max_values (scores.map Prod.snd), ?_, hub⟩
    have hq_eta : q = (dfound, max_values (scores.map Prod.snd)) := by
      rcases q with ⟨qa, qb⟩
      simp only at hq1 hq2v
      rw [hq1, hq2v]
    rw [hpick, ← hq_eta]
    exact hq_mem
  · intro d v hdv hmax
    have hveq : v = max_values (scores.map Prod.snd) := by
      have h1 : v ≤ max_values (scores.map Prod.snd) := hub (d, v) hdv
      have h2 : max_values (scores.map Prod.snd) ≤ v := by
        have := hmax q0 hq0_mem
        rw [hq0_eq] at this
        exact this
      exact le_antisymm h1 h2
    have hdC : d ∈ (scores.filter
        (fun p => decide (p.2 = max_values (scores.map Prod.snd)))).map Prod.fst :=
      List.mem_map.mpr ⟨(d, v), List.mem_filter.mpr ⟨hdv, by simp [hveq]⟩, rfl⟩
    rw [hpick]
    exact find?_tie_break_min _ dfound hfound d (decide_eq_true hdC)

set_option maxRecDepth 2000 in
/-- Witness for C7 at a concrete tied score map: INFO_ONLY and REFUND tie
at 50, and REFUND (the higher priority of the two) is picked. -/
theorem pick_best_decision_spec_witness :
    ([(DecisionType.INFO_ONLY, (50:ℚ)), (DecisionType.REFUND, 50),
      (DecisionType.ESCALATE, 10)] ≠ []) ∧
    (∃ v, (pick_best_decision [(DecisionType.INFO_ONLY, (50:ℚ)),
        (DecisionType.REFUND, 50), (DecisionType.ESCALATE, 10)], v) ∈
        [(DecisionType.INFO_ONLY, (50:ℚ)), (DecisionType.REFUND, 50),
          (DecisionType.ESCALATE, 10)] ∧
      ∀ p ∈ [(DecisionType.INFO_ONLY, (50:ℚ)), (DecisionType.REFUND, 50),
        (DecisionType.ESCALATE, 10)], p.2 ≤ v) ∧
    priorityIdx (pick_best_decision [(DecisionType.INFO_ONLY, (50:ℚ)),
      (DecisionType.REFUND, 50), (DecisionType.ESCALATE, 10)]) ≤
      priorityIdx DecisionType.INFO_ONLY := by
  have hne : [(DecisionType.INFO_ONLY, (50:ℚ)), (DecisionType.REFUND, 50),
      (DecisionType.ESCALATE, 10)] ≠ [] := by simp
  refine ⟨hne, (pick_best_decision_spec _ hne).1, ?_⟩
  exact (pick_best_decision_spec _ hne).2 DecisionType.INFO_ONLY 50 (by decide) (by decide)

/-- A keyword cannot match at a position whose character does not lower to
a letter. -/
theorem keyword_here_none_of_nonalpha {ws : List (List Char)} (hw : kw_ok ws)
    (prev : Option Char) (c : Char) (rest : List Char)
    (hc : (Char.toLower c).isAlpha = false) :
    keyword_here ws prev (c :: rest) = none := by
  unfold keyword_here
  split
  · apply List.find?_eq_none.mpr
    intro w hwmem
    obtain ⟨hne, hhead, -⟩ := hw w hwmem
    cases w with
    | nil => exact absurd rfl hne
    | cons d w' =>
      simp only [Bool.and_eq_true, decide_eq_true_eq, not_and]
      intro heq
      rw [List.length_cons, List.take_succ_cons, List.map_cons] at heq
      injection heq with h1 h2
      rw [List.headD_cons] at hhead
      rw [h1] at hc
      rw [hhead] at hc
      cases hc
  · rfl

/-- A keyword search fails over text whose characters do not lower to
letters. -/
theorem keyword_search_go_nonalpha {ws : List (List Char)} (hw : kw_ok ws) :
    ∀ (l : List Char), (∀ c ∈ l, (Char.toLower c).isAlpha = false) →
      ∀ prev, keyword_search_go ws prev l = false := by
  intro l
  induction l with
  | nil => intro _ _; rfl
  | cons c rest ih =>
    intro hl prev
    unfold keyword_search_go
    rw [keyword_here_none_of_nonalpha hw prev c rest (hl c (List.mem_cons_self c rest))]
    simp only [Option.isSome_none, Bool.false_or]
    exact ih (fun d hd => hl d (List.mem_cons_of_mem c hd)) (some c)

/-- A keyword substitution leaves matchless text unchanged. -/
theorem keyword_sub_go_id (ws : List (List Char)) :
    ∀ (fuel : Nat) (prev : Option Char) (l : List Char),
      keyword_search_go ws prev l = false → keyword_sub_go ws fuel prev l = l := by
  intro fuel
  induction fuel with
  | zero => intro prev l _; rfl
  | succ f ih =>
    intro prev l h
    cases l with
    | nil => rfl
    | cons c rest =>
      unfold keyword_search_go at h
      rw [Bool.or_eq_false_iff] at h
      obtain ⟨h1, h2⟩ := h
      unfold keyword_sub_go
      cases hk : keyword_here ws prev (c :: rest) with
      | some w => rw [hk] at h1; cases h1
      | none => rw [ih (some c) rest h2]

/-- A blob substitution leaves matchless text unchanged. -/
theorem blob_sub_go_id :
    ∀ (fuel : Nat) (l : List Char), blob_search l = false → blob_sub_go fuel l = l := by
  intro fuel
  induction fuel with
  | zero => intro l _; rfl
  | succ f ih =>
    intro l h
    cases l with
    | nil => rfl
    | cons c rest =>
      unfold blob_search at h
      rw [Bool.or_eq_false_iff] at h
      obtain ⟨h1, h2⟩ := h
      unfold blob_sub_go
      by_cases hc : c = '{'
      · rw [if_pos hc] at h1 ⊢
        cases hcs : colon_scan 0 rest with
        | some k => rw [hcs] at h1; cases h1
        | none => rw [ih rest h2]
      · rw [if_neg hc]
        rw [ih rest h2]

/-- The colon scan dies inside a whitespace run that overflows the
600-character budget. -/
theorem colon_scan_replicate_space :
    ∀ (k n : Nat) (l : List Char), 600 < n + k → n ≤ 600 →
      colon_scan n (List.replicate k ' ' ++ l) = none := by
  intro k
  induction k with
  | zero => intro n l h1 h2; omega
  | succ k' ih =>
    intro n l h1 h2
    rw [List.replicate_succ, List.cons_append]
    unfold colon_scan
    rw [if_neg (by decide)]
    by_cases hn : n < 600
    · rw [if_pos hn, ih (n + 1) l (by omega) (by omega)]
      simp
    · rw [if_neg hn]
      simp

/-- Blob search fails over text without an opening brace. -/
theorem blob_search_no_brace :
    ∀ (l : List Char), (∀ c ∈ l, c ≠ '{') → blob_search l = false := by
  intro l
  induction l with
  | nil => intro _; rfl
  | cons c rest ih =>
    intro h
    unfold blob_search
    rw [if_neg (h c (List.mem_cons_self c rest))]
    rw [ih (fun d hd => h d (List.mem_cons_of_mem c hd))]
    rfl

/-- Whitespace collapsing absorbs a whitespace run after a space. -/
theorem collapse_ws_go_true_replicate :
    ∀ (k : Nat) (l : List Char),
      collapse_ws_go true (List.replicate k ' ' ++ l) = collapse_ws_go true l := by
  intro k
  induction k with
  | zero => intro l; rfl
  | succ k' ih =>
    intro l
    rw [List.replicate_succ, List.cons_append]
    conv_lhs => unfold collapse_ws_go
    rw [if_pos (by decide), if_pos rfl, List.nil_append]
    exact ih l

/-- The characters of the counterexample subject. -/
theorem guard_ce_subject_chars :
    ∀ c ∈ guard_ce_subject, c = '{' ∨ c = ' ' ∨ c = ':' ∨ c = '}' := by
  intro c hc
  unfold guard_ce_subject at hc
  rcases List.mem_cons.mp hc with rfl | hc
  · exact Or.inl rfl
  rcases List.mem_append.mp hc with hc | hc
  · exact Or.inr (Or.inl (List.eq_of_mem_replicate hc))
  rcases List.mem_cons.mp hc with rfl | hc
  · exact Or.inr (Or.inr (Or.inl rfl))
  rcases List.mem_cons.mp hc with rfl | hc
  · exact Or.inr (Or.inr (Or.inr rfl))
  cases hc

/-- Collapsing the counterexample subject shrinks the brace region to a
single space. -/
theorem collapse_ws_guard_ce : collapse_ws guard_ce_subject = ['{', ' ', ':', '}'] := by
  unfold guard_ce_subject collapse_ws
  rw [show (601 : Nat) = 600 + 1 by norm_num, List.replicate_succ, List.cons_append]
  unfold collapse_ws_go
  rw [if_neg (by decide)]
  unfold collapse_ws_go
  rw [if_pos (by decide)]
  rw [collapse_ws_go_true_replicate]
  rfl

/-- C8 counterexample: the subject `"{" + 601 spaces + ":}"` passes the
guard (the brace region exceeds the 600-character pattern bound), but its
sanitized form `"{ :}"` matches TOOL_JSON_BLOB, so re-evaluating the
sanitized text fails. -/
theorem evaluate_sanitize_counterexample :
    (evaluate_output_guard guard_ce_subject []).passed = true ∧
    (evaluate_output_guard (sanitize_customer_email guard_ce_subject []).1
      (sanitize_customer_email guard_ce_subject []).2).passed = false := by
  have hcomb_chars : ∀ c ∈ guard_ce_subject ++ '\n' :: ([] : List Char),
      (Char.toLower c).isAlpha = false := by
    intro c hc
    rcases List.mem_append.mp hc with hc | hc
    · rcases guard_ce_subject_chars c hc with rfl | rfl | rfl | rfl <;> decide
    · rcases List.mem_cons.mp hc with rfl | hc
      · decide
      · cases hc
  have hsubj_chars : ∀ c ∈ guard_ce_subject, (Char.toLower c).isAlpha = false := by
    intro c hc
    exact hcomb_chars c (List.mem_append_left _ hc)
  have hk1 : keyword_search scores_keywords (guard_ce_subject ++ '\n' :: []) = false :=
    keyword_search_go_nonalpha (by decide) _ hcomb_chars none
  have hk2 : keyword_search policy_keywords (guard_ce_subject ++ '\n' :: []) = false :=
    keyword_search_go_nonalpha (by decide) _ hcomb_chars none
  have hk3 : keyword_search rag_keywords (guard_ce_subject ++ '\n' :: []) = false :=
    keyword_search_go_nonalpha (by decide) _ hcomb_chars none
  have hrest : (guard_ce_subject ++ '\n' :: ([] : List Char)) =
      '{' :: (List.replicate 601 ' ' ++ [':', '}', '\n']) := by
    unfold guard_ce_subject
    rw [List.cons_append, List.append_assoc]
    rfl
  have hblob : blob_search (guard_ce_subject ++ '\n' :: []) = false := by
    rw [hrest]
    unfold blob_search
    rw [if_pos rfl]
    rw [colon_scan_replicate_space 601 0 _ (by omega) (by omega)]
    rw [blob_search_no_brace]
    · rfl
    · intro c hc
      rcases List.mem_append.mp hc with hc | hc
      · rw [List.eq_of_mem_replicate hc]; decide
      · rcases List.mem_cons.mp hc with rfl | hc
        · decide
        rcases List.mem_cons.mp hc with rfl | hc
        · decide
        rcases List.mem_cons.mp hc with rfl | hc
        · decide
        cases hc
  have hfv : find_violations guard_ce_subject [] = [] := by
    unfold find_violations
    dsimp only
    rw [hk1, hk2, hk3, hblob]
    rfl
  have hks1 : keyword_search scores_keywords guard_ce_subject = false :=
    keyword_search_go_nonalpha (by decide) _ hsubj_chars none
  have hks2 : keyword_search policy_keywords guard_ce_subject = false :=
    keyword_search_go_nonalpha (by decide) _ hsubj_chars none
  have hks3 : keyword_search rag_keywords guard_ce_subject = false :=
    keyword_search_go_nonalpha (by decide) _ hsubj_chars none
  have hbs : blob_search guard_ce_subject = false := by
    unfold guard_ce_subject blob_search
    rw [if_pos rfl]
    rw [colon_scan_replicate_space 601 0 _ (by omega) (by omega)]
    rw [blob_search_no_brace]
    · rfl
    · intro c hc
      rcases List.mem_append.mp hc with hc | hc
      · rw [List.eq_of_mem_replicate hc]; decide
      · rcases List.mem_cons.mp hc with rfl | hc
        · decide
        rcases List.mem_cons.mp hc with rfl | hc
        · decide
        cases hc
  have hsan : sanitize_customer_email guard_ce_subject [] = (['{', ' ', ':', '}'], []) := by
    unfold sanitize_customer_email keyword_sub blob_sub
    dsimp only
    rw [keyword_sub_go_id scores_keywords _ _ _ hks1]
    rw [keyword_sub_go_id policy_keywords _ _ _ hks2]
    rw [keyword_sub_go_id rag_keywords _ _ _ hks3]
    rw [blob_sub_go_id _ _ hbs]
    rw [collapse_ws_guard_ce]
    rfl
  constructor
  · unfold evaluate_output_guard
    dsimp only
    rw [hfv]
    rfl
  · rw [hsan]
    decide

/-- A keyword test at a position depends on the previous character only
through the word-boundary status. -/
theorem keyword_here_congr (ws : List (List Char)) (prev1 prev2 : Option Char)
    (l : List Char) (h : word_boundary_before prev1 = word_boundary_before prev2) :
    keyword_here ws prev1 l = keyword_here ws prev2 l := by
  unfold keyword_here
  rw [h]

/-- A keyword search depends on the previous character only through the
word-boundary status. -/
theorem keyword_search_go_congr (ws : List (List Char)) (prev1 prev2 : Option Char)
    (l : List Char) (h : word_boundary_before prev1 = word_boundary_before prev2) :
    keyword_search_go ws prev1 l = keyword_search_go ws prev2 l := by
  cases l with
  | nil => rfl
  | cons c rest =>
    unfold keyword_search_go
    rw [keyword_here_congr ws prev1 prev2 (c :: rest) h]

/-- Appending text that opens on a word boundary preserves keyword
matches. -/
theorem keyword_search_go_append_right (ws : List (List Char)) (z : List Char)
    (hz : word_boundary_after z = true) :
    ∀ (s : List Char) (prev : Option Char),
      keyword_search_go ws prev s = true → keyword_search_go ws prev (s ++ z) = true := by
  intro s
  induction s with
  | nil => intro prev h; cases h
  | cons c rest ih =>
    intro prev h
    unfold keyword_search_go at h
    rw [Bool.or_eq_true] at h
    rw [List.cons_append]
    unfold keyword_search_go
    rw [Bool.or_eq_true]
    rcases h with h | h
    · left
      rw [Option.isSome_iff_exists] at h
      obtain ⟨w, hw⟩ := h
      unfold keyword_here at hw ⊢
      by_cases hb : word_boundary_before prev = true
      · rw [if_pos hb] at hw ⊢
        have hmem := List.mem_of_find?_eq_some hw
        have hp := List.find?_some hw
        rw [Bool.and_eq_true, decide_eq_true_eq] at hp
        obtain ⟨htake, hafter⟩ := hp
        have hlen : w.length ≤ (c :: rest).length := by
          have := congrArg List.length htake
          rw [List.length_map, List.length_take] at this
          omega
        apply List.find?_isSome.mpr
        refine ⟨w, hmem, ?_⟩
        rw [Bool.and_eq_true, decide_eq_true_eq]
        constructor
        · rw [← List.cons_append, List.take_append_of_le_length hlen]
          exact htake
        · rw [← List.cons_append, List.drop_append_of_le_length hlen]
          cases hd : (c :: rest).drop w.length with
          | nil => rw [List.nil_append]; exact hz
          | cons e rest' =>
            rw [hd] at hafter
            exact hafter
      · rw [if_neg hb] at hw
        cases hw
    · exact Or.inr (ih (some c) h)

/-- A keyword match in a suffix embeds into the whole text (the suffix is
reached by skipping the prefix positions). -/
theorem keyword_search_go_append_left (ws : List (List Char)) :
    ∀ (x t : List Char) (prev : Option Char),
      keyword_search_go ws (some (x.getLastD 'a')) t = true → x ≠ [] →
      keyword_search_go ws prev (x ++ t) = true := by
  intro x
  induction x with
  | nil => intro t prev _ hne; exact absurd rfl hne
  | cons c x' ih =>
    intro t prev h _
    rw [List.cons_append]
    unfold keyword_search_go
    rw [Bool.or_eq_true]
    right
    cases x' with
    | nil =>
      simpa using h
    | cons d x'' =>
      apply ih t (some c) _ (by simp)
      have : (c :: d :: x'').getLastD 'a' = (d :: x'').getLastD 'a' := by
        rw [List.getLastD_cons, List.getLastD_cons, List.getLastD_cons]
      rw [this] at h
      exact h

/-- A keyword match in `B` embeds into `A ++ '\n' :: B`. -/
theorem keyword_search_embed_after_nl (ws : List (List Char)) (A B : List Char)
    (h : keyword_search ws B = true) :
    keyword_search ws (A ++ '\n' :: B) = true := by
  have h2 : keyword_search_go ws (some '\n') B = true := by
    rw [keyword_search_go_congr ws (some '\n') none B (by decide)]
    exact h
  have h3 : keyword_search_go ws (some ((A ++ ['\n']).getLastD 'a')) B = true := by
    rw [List.getLastD_concat]
    exact h2
  have h4 := keyword_search_go_append_left ws (A ++ ['\n']) B none h3 (by simp)
  rw [List.append_assoc] at h4
  exact h4

/-- `isSome` is invariant under `Option.map`. -/
theorem isSome_map_nat (f : Nat → Nat) (o : Option Nat) : (o.map f).isSome = o.isSome := by
  cases o <;> rfl

/-- Extending the close scan's text preserves success. -/
theorem close_scan_extend :
    ∀ (u : List Char) (n : Nat) (tail : List Char),
      (close_scan n u).isSome = true → (close_scan n (u ++ tail)).isSome = true := by
  intro u
  induction u with
  | nil => intro n tail h; cases h
  | cons c rest ih =>
    intro n tail h
    rw [List.cons_append]
    unfold close_scan at h ⊢
    by_cases h1 : c = '}'
    · rw [if_pos h1] at h ⊢
      exact h
    · rw [if_neg h1] at h ⊢
      by_cases h2 : c = '{'
      · rw [if_pos h2] at h
        cases h
      · rw [if_neg h2] at h ⊢
        by_cases h3 : n < 600
        · rw [if_pos h3] at h ⊢
          rw [isSome_map_nat] at h ⊢
          exact ih (n + 1) tail h
        · rw [if_neg h3] at h
          cases h

/-- Extending the colon scan's text preserves success. -/
theorem colon_scan_extend :
    ∀ (u : List Char) (n : Nat) (tail : List Char),
      (colon_scan n u).isSome = true → (colon_scan n (u ++ tail)).isSome = true := by
  intro u
  induction u with
  | nil => intro n tail h; cases h
  | cons c rest ih =>
    intro n tail h
    rw [List.cons_append]
    unfold colon_scan at h ⊢
    by_cases h1 : c = '{' ∨ c = '}'
    · rw [if_pos h1] at h
      cases h
    · rw [if_neg h1] at h ⊢
      by_cases h3 : n < 600
      · rw [if_pos h3] at h ⊢
        cases hrec : colon_scan (n + 1) rest with
        | some k =>
          have : (colon_scan (n + 1) (rest ++ tail)).isSome = true :=
            ih (n + 1) tail (by rw [hrec]; rfl)
          rw [Option.isSome_iff_exists] at this
          obtain ⟨k2, hk2⟩ := this
          rw [hk2]
          rfl
        | none =>
          rw [hrec] at h
          simp only [Option.map_none'] at h
          cases hrec2 : colon_scan (n + 1) (rest ++ tail) with
          | some k2 => rfl
          | none =>
            simp only [Option.map_none']
            by_cases h4 : c = ':'
            · rw [if_pos h4] at h ⊢
              rw [isSome_map_nat] at h ⊢
              exact close_scan_extend rest 0 tail h
            · rw [if_neg h4] at h
              cases h
      · rw [if_neg h3] at h ⊢
        simp only [Option.map_none'] at h ⊢
        by_cases h4 : c = ':'
        · rw [if_pos h4] at h ⊢
          rw [isSome_map_nat] at h ⊢
          exact close_scan_extend rest 0 tail h
        · rw [if_neg h4] at h
          cases h

/-- Extending the text to the right preserves blob matches. -/
theorem blob_search_append_right :
    ∀ (u tail : List Char), blob_search u = true → blob_search (u ++ tail) = true := by
  intro u
  induction u with
  | nil => intro tail h; cases h
  | cons c rest ih =>
    intro tail h
    rw [List.cons_append]
    unfold blob_search at h ⊢
    rw [Bool.or_eq_true] at h ⊢
    rcases h with h | h
    · left
      by_cases hc : c = '{'
      · rw [if_pos hc] at h ⊢
        exact colon_scan_extend rest 0 tail h
      · rw [if_neg hc] at h
        cases h
    · exact Or.inr (ih tail h)

/-- A blob match in a suffix embeds into the whole text. -/
theorem blob_search_append_left :
    ∀ (x u : List Char), blob_search u = true → blob_search (x ++ u) = true := by
  intro x
  induction x with
  | nil => intro u h; exact h
  | cons c x' ih =>
    intro u h
    rw [List.cons_append]
    unfold blob_search
    rw [Bool.or_eq_true]
    exact Or.inr (ih u h)

/-- Newline splitting never produces an empty list of pieces. -/
theorem split_on_nl_ne_nil (b : List Char) : split_on_nl b ≠ [] := by
  cases b with
  | nil => simp [split_on_nl]
  | cons c rest =>
    unfold split_on_nl
    by_cases hc : c = '\n'
    · rw [if_pos hc]; simp
    · rw [if_neg hc]
      cases split_on_nl rest <;> simp

/-- The first piece of newline splitting is a prefix of the text, cut at a
newline (or the end). -/
theorem split_on_nl_head_prefix :
    ∀ b : List Char, ∃ z, b = (split_on_nl b).headD [] ++ z ∧
      (z = [] ∨ ∃ z', z = '\n' :: z') := by
  intro b
  induction b with
  | nil => exact ⟨[], rfl, Or.inl rfl⟩
  | cons c rest ih =>
    by_cases hc : c = '\n'
    · subst hc
      refine ⟨'\n' :: rest, ?_, Or.inr ⟨rest, rfl⟩⟩
      unfold split_on_nl
      rw [if_pos rfl]
      rfl
    · obtain ⟨z, hz, hshape⟩ := ih
      refine ⟨z, ?_, hshape⟩
      unfold split_on_nl
      rw [if_neg hc]
      cases hs : split_on_nl rest with
      | nil => exact absurd hs (split_on_nl_ne_nil rest)
      | cons hh tt =>
        rw [hs] at hz
        simp only [List.headD_cons] at hz ⊢
        rw [List.cons_append, ← hz]

/-- Every piece after the first sits in the text immediately after a
newline, and runs to a newline (or the end). -/
theorem split_on_nl_tail_mem :
    ∀ (b l : List Char), l ∈ (split_on_nl b).tail →
      ∃ x z, b = x ++ '\n' :: (l ++ z) ∧ (z = [] ∨ ∃ z', z = '\n' :: z') := by
  intro b
  induction b with
  | nil => intro l h; simp [split_on_nl] at h
  | cons c rest ih =>
    intro l h
    by_cases hc : c = '\n'
    · subst hc
      rw [show split_on_nl ('\n' :: rest) = [] :: split_on_nl rest from by
        conv_lhs => unfold split_on_nl
        rw [if_pos rfl]] at h
      rw [List.tail_cons] at h
      cases hs : split_on_nl rest with
      | nil => exact absurd hs (split_on_nl_ne_nil rest)
      | cons hh tt =>
        rw [hs] at h
        rcases List.mem_cons.mp h with rfl | htail
        · obtain ⟨z, hz, hshape⟩ := split_on_nl_head_prefix rest
          rw [hs] at hz
          simp only [List.headD_cons] at hz
          exact ⟨[], z, by rw [List.nil_append, ← hz], hshape⟩
        · have hmem : l ∈ (split_on_nl rest).tail := by rw [hs]; exact htail
          obtain ⟨x, z, hxz, hshape⟩ := ih l hmem
          exact ⟨'\n' :: x, z, by rw [hxz]; rfl, hshape⟩
    · cases hs : split_on_nl rest with
      | nil => exact absurd hs (split_on_nl_ne_nil rest)
      | cons hh tt =>
        rw [show split_on_nl (c :: rest) = (c :: hh) :: tt from by
          conv_lhs => unfold split_on_nl
          rw [if_neg hc, hs]] at h
        rw [List.tail_cons] at h
        have hmem : l ∈ (split_on_nl rest).tail := by rw [hs]; exact h
        obtain ⟨x, z, hxz, hshape⟩ := ih l hmem
        exact ⟨c :: x, z, by rw [hxz]; rfl, hshape⟩

/-- The tail of a piece decomposition opens on a word boundary. -/
theorem piece_tail_wba {z : List Char} (hshape : z = [] ∨ ∃ z', z = '\n' :: z') :
    word_boundary_after z = true := by
  rcases hshape with rfl | ⟨z', rfl⟩
  · rfl
  · rfl

/-- A keyword match in a line of the body embeds into the guarded combined
text. -/
theorem line_keyword_embed (ws : List (List Char)) (s b l : List Char)
    (hl : l ∈ split_lines b) (h : keyword_search ws l = true) :
    keyword_search ws (s ++ '\n' :: b) = true := by
  have hmem : l ∈ split_on_nl b := by
    unfold split_lines at hl
    cases b with
    | nil => cases hl
    | cons c rest =>
      dsimp only at hl
      by_cases hlast : (c :: rest).getLast? = some '\n'
      · rw [if_pos hlast] at hl; exact List.mem_of_mem_dropLast hl
      · rw [if_neg hlast] at hl; exact hl
  cases hsplit : split_on_nl b with
  | nil => exact absurd hsplit (split_on_nl_ne_nil b)
  | cons hh tt =>
    rw [hsplit] at hmem
    rcases List.mem_cons.mp hmem with rfl | htail
    · obtain ⟨z, hz, hshape⟩ := split_on_nl_head_prefix b
      rw [hsplit] at hz
      simp only [List.headD_cons] at hz
      have h2 := keyword_search_go_append_right ws z (piece_tail_wba hshape) l none h
      rw [← hz] at h2
      exact keyword_search_embed_after_nl ws s b h2
    · have hmem2 : l ∈ (split_on_nl b).tail := by rw [hsplit]; exact htail
      obtain ⟨x, z, hxz, hshape⟩ := split_on_nl_tail_mem b l hmem2
      have h2 := keyword_search_go_append_right ws z (piece_tail_wba hshape) l none h
      have h3 := keyword_search_embed_after_nl ws x (l ++ z) h2
      rw [← hxz] at h3
      exact keyword_search_embed_after_nl ws s b h3

/-- A blob match in a line of the body embeds into the guarded combined
text. -/
theorem line_blob_embed (s b l : List Char) (hl : l ∈ split_lines b)
    (h : blob_search l = true) : blob_search (s ++ '\n' :: b) = true := by
  have hmem : l ∈ split_on_nl b := by
    unfold split_lines at hl
    cases b with
    | nil => cases hl
    | cons c rest =>
      dsimp only at hl
      by_cases hlast : (c :: rest).getLast? = some '\n'
      · rw [if_pos hlast] at hl; exact List.mem_of_mem_dropLast hl
      · rw [if_neg hlast] at hl; exact hl
  have hb : blob_search b = true := by
    cases hsplit : split_on_nl b with
    | nil => exact absurd hsplit (split_on_nl_ne_nil b)
    | cons hh tt =>
      rw [hsplit] at hmem
      rcases List.mem_cons.mp hmem with rfl | htail
      · obtain ⟨z, hz, hshape⟩ := split_on_nl_head_prefix b
        rw [hsplit] at hz
        simp only [List.headD_cons] at hz
        rw [hz]
        exact blob_search_append_right l z h
      · have hmem2 : l ∈ (split_on_nl b).tail := by rw [hsplit]; exact htail
        obtain ⟨x, z, hxz, hshape⟩ := split_on_nl_tail_mem b l hmem2
        rw [hxz]
        have h2 := blob_search_append_right l z h
        have h3 := blob_search_append_left (x ++ ['\n']) (l ++ z) h2
        rw [List.append_assoc] at h3
        exact h3
  have h4 := blob_search_append_left (s ++ ['\n']) b hb
  rw [List.append_assoc] at h4
  exact h4

/-- C8 (amended, normalization part): on violation-free input, subject
sanitization redacts nothing and body sanitization drops no line, so
`sanitize_customer_email` performs exactly the pure whitespace
normalization. -/
theorem sanitize_ws_normalization (s b : List Char)
    (h : (evaluate_output_guard s b).passed = true) :
    sanitize_customer_email s b = (ws_normalize_subject s, ws_normalize_body b) := by
  have hfv : find_violations s b = [] := by
    unfold evaluate_output_guard at h
    dsimp only at h
    exact List.isEmpty_iff.mp h
  have hs1 : keyword_search scores_keywords (s ++ '\n' :: b) = false := by
    by_contra hx
    rw [Bool.not_eq_false] at hx
    unfold find_violations at hfv
    dsimp only at hfv
    rw [hx] at hfv
    simp at hfv
  have hs2 : keyword_search policy_keywords (s ++ '\n' :: b) = false := by
    by_contra hx
    rw [Bool.not_eq_false] at hx
    unfold find_violations at hfv
    dsimp only at hfv
    rw [hx] at hfv
    simp at hfv
  have hs3 : keyword_search rag_keywords (s ++ '\n' :: b) = false := by
    by_contra hx
    rw [Bool.not_eq_false] at hx
    unfold find_violations at hfv
    dsimp only at hfv
    rw [hx] at hfv
    simp at hfv
  have hs4 : blob_search (s ++ '\n' :: b) = false := by
    by_contra hx
    rw [Bool.not_eq_false] at hx
    unfold find_violations at hfv
    dsimp only at hfv
    rw [hx] at hfv
    simp at hfv
  have hwba : word_boundary_after ('\n' :: b) = true := rfl
  have hsub1 : keyword_search scores_keywords s = false := by
    by_contra hx
    rw [Bool.not_eq_false] at hx
    have h2 : keyword_search scores_keywords (s ++ '\n' :: b) = true :=
      keyword_search_go_append_right scores_keywords ('\n' :: b) hwba s none hx
    rw [hs1] at h2
    cases h2
  have hsub2 : keyword_search policy_keywords s = false := by
    by_contra hx
    rw [Bool.not_eq_false] at hx
    have h2 : keyword_search policy_keywords (s ++ '\n' :: b) = true :=
      keyword_search_go_append_right policy_keywords ('\n' :: b) hwba s none hx
    rw [hs2] at h2
    cases h2
  have hsub3 : keyword_search rag_keywords s = false := by
    by_contra hx
    rw [Bool.not_eq_false] at hx
    have h2 : keyword_search rag_keywords (s ++ '\n' :: b) = true :=
      keyword_search_go_append_right rag_keywords ('\n' :: b) hwba s none hx
    rw [hs3] at h2
    cases h2
  have hsub4 : blob_search s = false := by
    by_contra hx
    rw [Bool.not_eq_false] at hx
    have h2 := blob_search_append_right s ('\n' :: b) hx
    rw [hs4] at h2
    cases h2
  have hlines : ∀ l ∈ split_lines b, (!line_has_violation l) = true := by
    intro l hl
    have hk1 : keyword_search scores_keywords l = false := by
      by_contra hx
      rw [Bool.not_eq_false] at hx
      have h2 := line_keyword_embed scores_keywords s b l hl hx
      rw [hs1] at h2
      cases h2
    have hk2 : keyword_search policy_keywords l = false := by
      by_contra hx
      rw [Bool.not_eq_false] at hx
      have h2 := line_keyword_embed policy_keywords s b l hl hx
      rw [hs2] at h2
      cases h2
    have hk3 : keyword_search rag_keywords l = false := by
      by_contra hx
      rw [Bool.not_eq_false] at hx
      have h2 := line_keyword_embed rag_keywords s b l hl hx
      rw [hs3] at h2
      cases h2
    have hk4 : blob_search l = false := by
      by_contra hx
      rw [Bool.not_eq_false] at hx
      have h2 := line_blob_embed s b l hl hx
      rw [hs4] at h2
      cases h2
    unfold line_has_violation
    rw [hk1, hk2, hk3, hk4]
    rfl
  unfold sanitize_customer_email keyword_sub blob_sub ws_normalize_subject ws_normalize_body
  dsimp only
  rw [keyword_sub_go_id scores_keywords _ _ _ hsub1]
  rw [keyword_sub_go_id policy_keywords _ _ _ hsub2]
  rw [keyword_sub_go_id rag_keywords _ _ _ hsub3]
  rw [blob_sub_go_id _ _ hsub4]
  rw [List.filter_eq_self.mpr hlines]

/-- Whitespace characters are not word characters. -/
theorem not_word_of_space (c : Char) (h : pyIsSpace c = true) : isWordChar c = false := by
  have h6 : c = ' ' ∨ c = '\t' ∨ c = '\n' ∨ c = '\r' ∨ c = '\x0b' ∨ c = '\x0c' := by
    unfold pyIsSpace at h
    simp only [Bool.or_eq_true, decide_eq_true_eq] at h
    tauto
  rcases h6 with rfl | rfl | rfl | rfl | rfl | rfl <;> decide

/-- A character whose lowering is a word character is not whitespace. -/
theorem not_space_of_toLower_word (c : Char) (h : isWordChar (Char.toLower c) = true) :
    pyIsSpace c = false := by
  by_contra hx
  rw [Bool.not_eq_false] at hx
  have h6 : c = ' ' ∨ c = '\t' ∨ c = '\n' ∨ c = '\r' ∨ c = '\x0b' ∨ c = '\x0c' := by
    unfold pyIsSpace at hx
    simp only [Bool.or_eq_true, decide_eq_true_eq] at hx
    tauto
  rcases h6 with rfl | rfl | rfl | rfl | rfl | rfl <;> exact absurd h (by decide)

/-- The previous-character state after an empty prefix. -/
theorem last_or_nil (prev : Option Char) : last_or [] prev = prev := rfl

/-- The previous-character state advances one character at a time. -/
theorem last_or_cons (c : Char) (x : List Char) (prev : Option Char) :
    last_or (c :: x) prev = last_or x (some c) := by
  cases x with
  | nil => rfl
  | cons d x' =>
    unfold last_or
    rw [List.getLast?_cons_cons]
    cases hg : (d :: x').getLast? with
    | none => simp at hg
    | some e => rfl

/-- The previous-character state after a nonempty concrete suffix. -/
theorem last_or_concat (l : List Char) (a : Char) (prev : Option Char) :
    last_or (l ++ [a]) prev = some a := by
  unfold last_or
  rw [List.getLast?_concat]

/-- The previous-character state after a nonempty replicate block. -/
theorem last_or_replicate_succ (n : Nat) (a : Char) (prev : Option Char) :
    last_or (List.replicate (n + 1) a) prev = some a := by
  rw [List.replicate_succ']
  exact last_or_concat _ a prev

/-- A keyword match after a prefix embeds into the prefixed text: the
previous-character state advances through the prefix. -/
theorem keyword_search_go_embed (ws : List (List Char)) :
    ∀ (x t : List Char) (prev : Option Char),
      keyword_search_go ws (last_or x prev) t = true →
      keyword_search_go ws prev (x ++ t) = true := by
  intro x
  induction x with
  | nil => intro t prev h; exact h
  | cons c x' ih =>
    intro t prev h
    rw [List.cons_append]
    unfold keyword_search_go
    rw [Bool.or_eq_true]
    right
    apply ih t (some c)
    rw [← last_or_cons c x' prev]
    exact h

/-- Scanning past non-letter characters cannot hit a keyword match, so the
match carries over to the position after the skipped prefix. -/
theorem keyword_search_go_skip {ws : List (List Char)} (hw : kw_ok ws) :
    ∀ (x t : List Char) (prev : Option Char),
      (∀ c ∈ x, (Char.toLower c).isAlpha = false) →
      keyword_search_go ws prev (x ++ t) = true →
      keyword_search_go ws (last_or x prev) t = true := by
  intro x
  induction x with
  | nil => intro t prev _ h; exact h
  | cons c x' ih =>
    intro t prev hx h
    rw [List.cons_append] at h
    unfold keyword_search_go at h
    rw [Bool.or_eq_true] at h
    rcases h with h | h
    · rw [keyword_here_none_of_nonalpha hw prev c (x' ++ t)
        (hx c (List.mem_cons_self c x'))] at h
      cases h
    · rw [last_or_cons c x' prev]
      exact ih t (some c) (fun d hd => hx d (List.mem_cons_of_mem c hd)) h

/-- A keyword match in text joined by a newline lies within one of the two
sides: keywords consist of word characters, so no match spans the
separating newline. -/
theorem keyword_search_go_split {ws : List (List Char)} (hw : kw_ok ws) :
    ∀ (A : List Char) (prev : Option Char) (B : List Char),
      keyword_search_go ws prev (A ++ '\n' :: B) = true →
      keyword_search_go ws prev A = true ∨ keyword_search_go ws none B = true := by
  intro A
  induction A with
  | nil =>
    intro prev B h
    right
    rw [List.nil_append] at h
    unfold keyword_search_go at h
    rw [Bool.or_eq_true] at h
    rcases h with h | h
    · rw [keyword_here_none_of_nonalpha hw prev '\n' B (by decide)] at h
      cases h
    · rw [keyword_search_go_congr ws none (some '\n') B (by decide)]
      exact h
  | cons c A' ih =>
    intro prev B h
    rw [List.cons_append] at h
    unfold keyword_search_go at h
    rw [Bool.or_eq_true] at h
    rcases h with h | h
    · left
      rw [Option.isSome_iff_exists] at h
      obtain ⟨w, hfind⟩ := h
      unfold keyword_here at hfind
      by_cases hb : word_boundary_before prev = true
      · rw [if_pos hb] at hfind
        have hmem := List.mem_of_find?_eq_some hfind
        have hp := List.find?_some hfind
        rw [Bool.and_eq_true, decide_eq_true_eq] at hp
        obtain ⟨htake, hafter⟩ := hp
        have hlen : w.length ≤ (c :: A').length := by
          by_contra hlt
          push_neg at hlt
          have hidx : w[(c :: A').length]? = some '\n' := by
            conv_lhs => rw [← htake]
            rw [List.getElem?_map, List.getElem?_take, if_pos hlt, ← List.cons_append,
              List.getElem?_append_right (le_refl (c :: A').length)]
            simp only [Nat.sub_self, List.getElem?_cons_zero, Option.map_some']
            decide
          have hninw : '\n' ∈ w := List.getElem?_mem hidx
          obtain ⟨-, -, hword⟩ := hw w hmem
          exact absurd (hword '\n' hninw) (by decide)
        unfold keyword_search_go
        rw [Bool.or_eq_true]
        left
        unfold keyword_here
        rw [if_pos hb]
        apply List.find?_isSome.mpr
        refine ⟨w, hmem, ?_⟩
        rw [Bool.and_eq_true, decide_eq_true_eq]
        constructor
        · rw [← List.cons_append, List.take_append_of_le_length hlen] at htake
          exact htake
        · rw [← List.cons_append, List.drop_append_of_le_length hlen] at hafter
          cases hd : (c :: A').drop w.length with
          | nil => rfl
          | cons e r =>
            rw [hd, List.cons_append] at hafter
            exact hafter
      · rw [if_neg hb] at hfind
        cases hfind
    · rcases ih (some c) B h with h2 | h2
      · left
        unfold keyword_search_go
        rw [Bool.or_eq_true]
        right
        exact h2
      · right
        exact h2

/-- Decompose a text around its stripped core: a whitespace prefix and a
whitespace suffix. -/
theorem strip_ws_decomp (u : List Char) :
    ∃ pre post, u = (pre ++ strip_ws u) ++ post ∧
      (∀ c ∈ pre, pyIsSpace c = true) ∧ ∀ c ∈ post, pyIsSpace c = true := by
  refine ⟨u.takeWhile pyIsSpace,
    ((u.dropWhile pyIsSpace).reverse.takeWhile pyIsSpace).reverse, ?_, ?_, ?_⟩
  · unfold strip_ws
    rw [List.append_assoc]
    conv_lhs => rw [← List.takeWhile_append_dropWhile pyIsSpace u]
    congr 1
    rw [← List.reverse_append, List.takeWhile_append_dropWhile, List.reverse_reverse]
  · intro c hc
    exact List.mem_takeWhile_imp hc
  · intro c hc
    rw [List.mem_reverse] at hc
    exact List.mem_takeWhile_imp hc

/-- A keyword match survives un-stripping: surrounding whitespace keeps the
word boundaries intact. -/
theorem keyword_search_strip_backward (ws : List (List Char)) (u : List Char)
    (h : keyword_search ws (strip_ws u) = true) : keyword_search ws u = true := by
  obtain ⟨pre, post, hu, hpre, hpost⟩ := strip_ws_decomp u
  have hwba : word_boundary_after post = true := by
    cases post with
    | nil => rfl
    | cons c r =>
      show (!isWordChar c) = true
      rw [not_word_of_space c (hpost c (List.mem_cons_self c r))]
      rfl
  have h1 : keyword_search_go ws none (strip_ws u ++ post) = true :=
    keyword_search_go_append_right ws post hwba (strip_ws u) none h
  have hwb : word_boundary_before (last_or pre none) =
      word_boundary_before (none : Option Char) := by
    unfold last_or
    cases hp : pre.getLast? with
    | none => rfl
    | some c =>
      show (!isWordChar c) = true
      rw [not_word_of_space c (hpre c (List.mem_of_mem_getLast? hp))]
      rfl
  have h2 : keyword_search_go ws (last_or pre none) (strip_ws u ++ post) = true := by
    rw [keyword_search_go_congr ws (last_or pre none) none (strip_ws u ++ post) hwb]
    exact h1
  have h3 := keyword_search_go_embed ws pre (strip_ws u ++ post) none h2
  rw [← List.append_assoc] at h3
  unfold keyword_search
  rw [hu]
  exact h3

/-- Head-match transfer: a keyword match at the head of `c :: u` carries to
`c :: v` when `u` and `v` agree on non-whitespace prefixes (with matching
boundary status after them). -/
theorem keyword_here_transfer {ws : List (List Char)} (hw : kw_ok ws)
    (c : Char) (u v : List Char) (p q : Option Char) (hq : word_boundary_before q = true)
    (htk : ∀ k, (∀ ch ∈ u.take k, pyIsSpace ch = false) →
      u.take k = v.take k ∧
      (word_boundary_after (u.drop k) = true → word_boundary_after (v.drop k) = true))
    (h : (keyword_here ws p (c :: u)).isSome = true) :
    (keyword_here ws q (c :: v)).isSome = true := by
  rw [Option.isSome_iff_exists] at h
  obtain ⟨w, hfind⟩ := h
  unfold keyword_here at hfind
  by_cases hb : word_boundary_before p = true
  · rw [if_pos hb] at hfind
    have hmem := List.mem_of_find?_eq_some hfind
    have hp := List.find?_some hfind
    rw [Bool.and_eq_true, decide_eq_true_eq] at hp
    obtain ⟨htake, hafter⟩ := hp
    obtain ⟨-, -, hword⟩ := hw w hmem
    obtain ⟨d, w', rfl⟩ : ∃ d w', w = d :: w' := by
      cases w with
      | nil =>
        obtain ⟨hne, -, -⟩ := hw [] hmem
        exact absurd rfl hne
      | cons d w' => exact ⟨d, w', rfl⟩
    rw [List.length_cons, List.take_succ_cons, List.map_cons] at htake
    rw [List.length_cons, List.drop_succ_cons] at hafter
    injection htake with hc htake'
    have hcond : ∀ ch ∈ u.take w'.length, pyIsSpace ch = false := by
      intro ch hch
      have hmemw : Char.toLower ch ∈ w' := by
        rw [← htake']
        exact List.mem_map_of_mem Char.toLower hch
      exact not_space_of_toLower_word ch (hword _ (List.mem_cons_of_mem d hmemw))
    obtain ⟨hteq, himp⟩ := htk w'.length hcond
    unfold keyword_here
    rw [if_pos hq]
    apply List.find?_isSome.mpr
    refine ⟨d :: w', hmem, ?_⟩
    rw [Bool.and_eq_true, decide_eq_true_eq]
    constructor
    · rw [List.length_cons, List.take_succ_cons, List.map_cons, hc, ← hteq, htake']
    · rw [List.length_cons, List.drop_succ_cons]
      exact himp hafter
  · rw [if_neg hb] at hfind
    cases hfind

/-- Equation: collapsing at a space after a space absorbs the space. -/
theorem collapse_ws_go_true_space (c : Char) (rest : List Char) (hc : pyIsSpace c = true) :
    collapse_ws_go true (c :: rest) = collapse_ws_go true rest := by
  conv_lhs => unfold collapse_ws_go
  rw [if_pos hc]
  rfl

/-- Equation: collapsing at a space after a non-space emits one space. -/
theorem collapse_ws_go_false_space (c : Char) (rest : List Char) (hc : pyIsSpace c = true) :
    collapse_ws_go false (c :: rest) = ' ' :: collapse_ws_go true rest := by
  conv_lhs => unfold collapse_ws_go
  rw [if_pos hc]
  rfl

/-- Equation: collapsing copies a non-space character. -/
theorem collapse_ws_go_nonspace (flag : Bool) (c : Char) (rest : List Char)
    (hc : pyIsSpace c = false) :
    collapse_ws_go flag (c :: rest) = c :: collapse_ws_go false rest := by
  conv_lhs => unfold collapse_ws_go
  rw [hc]
  rfl

/-- Whitespace collapsing preserves non-whitespace prefixes of the output
verbatim, with matching word-boundary status after them. -/
theorem collapse_ws_take_eq :
    ∀ (u : List Char) (k : Nat),
      (∀ ch ∈ (collapse_ws_go false u).take k, pyIsSpace ch = false) →
      (collapse_ws_go false u).take k = u.take k ∧
      (word_boundary_after ((collapse_ws_go false u).drop k) = true →
        word_boundary_after (u.drop k) = true) := by
  intro u
  induction u with
  | nil => intro k _; exact ⟨rfl, fun hx => hx⟩
  | cons c rest ih =>
    intro k hk
    by_cases hc : pyIsSpace c = true
    · rw [collapse_ws_go_false_space c rest hc] at hk ⊢
      cases k with
      | zero =>
        refine ⟨rfl, fun _ => ?_⟩
        show (!isWordChar c) = true
        rw [not_word_of_space c hc]
        rfl
      | succ j =>
        exact absurd (hk ' ' (by rw [List.take_succ_cons]; exact List.mem_cons_self _ _))
          (by decide)
    · rw [Bool.not_eq_true] at hc
      rw [collapse_ws_go_nonspace false c rest hc] at hk ⊢
      cases k with
      | zero => exact ⟨rfl, fun hx => hx⟩
      | succ j =>
        obtain ⟨h1, h2⟩ := ih j (fun ch hch =>
          hk ch (by rw [List.take_succ_cons]; exact List.mem_cons_of_mem c hch))
        constructor
        · rw [List.take_succ_cons, List.take_succ_cons, h1]
        · rw [List.drop_succ_cons, List.drop_succ_cons]
          exact h2

/-- A keyword match survives un-collapsing of whitespace runs. -/
theorem collapse_ws_backward {ws : List (List Char)} (hw : kw_ok ws) :
    ∀ (u : List Char) (flag : Bool) (p q : Option Char),
      (word_boundary_before p = true → word_boundary_before q = true) →
      keyword_search_go ws p (collapse_ws_go flag u) = true →
      keyword_search_go ws q u = true := by
  intro u
  induction u with
  | nil => intro flag p q _ h; cases h
  | cons c rest ih =>
    intro flag p q hinv h
    by_cases hc : pyIsSpace c = true
    · unfold keyword_search_go
      rw [Bool.or_eq_true]
      right
      have hinv2 : ∀ (r : Option Char), word_boundary_before r = true →
          word_boundary_before (some c) = true := fun _ _ => by
        show (!isWordChar c) = true
        rw [not_word_of_space c hc]
        rfl
      cases flag with
      | true =>
        rw [collapse_ws_go_true_space c rest hc] at h
        exact ih true p (some c) (hinv2 p) h
      | false =>
        rw [collapse_ws_go_false_space c rest hc] at h
        unfold keyword_search_go at h
        rw [Bool.or_eq_true] at h
        rcases h with h | h
        · rw [keyword_here_none_of_nonalpha hw p ' ' _ (by decide)] at h
          cases h
        · exact ih true (some ' ') (some c) (hinv2 (some ' ')) h
    · rw [Bool.not_eq_true] at hc
      rw [collapse_ws_go_nonspace flag c rest hc] at h
      unfold keyword_search_go at h ⊢
      rw [Bool.or_eq_true] at h ⊢
      rcases h with h | h
      · left
        have hpwbb : word_boundary_before p = true := by
          by_contra hx
          rw [Bool.not_eq_true] at hx
          unfold keyword_here at h
          rw [hx] at h
          simp at h
        exact keyword_here_transfer hw c (collapse_ws_go false rest) rest p q
          (hinv hpwbb) (fun k hk => collapse_ws_take_eq rest k hk) h
      · right
        exact ih false (some c) (some c) (fun hx => hx) h

/-- Equation: newline collapsing defers a newline. -/
theorem collapse_nl_go_cons_nl (pending : Nat) (rest : List Char) :
    collapse_nl_go pending ('\n' :: rest) = collapse_nl_go (pending + 1) rest := by
  conv_lhs => unfold collapse_nl_go
  rw [if_pos rfl]

/-- Equation: newline collapsing flushes at a non-newline character. -/
theorem collapse_nl_go_cons_other (pending : Nat) (c : Char) (rest : List Char)
    (hc : c ≠ '\n') :
    collapse_nl_go pending (c :: rest) =
      List.replicate (min pending 2) '\n' ++ c :: collapse_nl_go 0 rest := by
  conv_lhs => unfold collapse_nl_go
  rw [if_neg hc]

/-- With pending newlines, the collapsed output starts with a newline. -/
theorem collapse_nl_go_pos_head :
    ∀ (u : List Char) (p : Nat), 0 < p → ∃ t, collapse_nl_go p u = '\n' :: t := by
  intro u
  induction u with
  | nil =>
    intro p hp
    refine ⟨List.replicate (min p 2 - 1) '\n', ?_⟩
    show List.replicate (min p 2) '\n' = _
    rw [show min p 2 = (min p 2 - 1) + 1 from by omega, List.replicate_succ,
      Nat.add_sub_cancel]
  | cons c rest ih =>
    intro p hp
    by_cases hc : c = '\n'
    · subst hc
      obtain ⟨t, ht⟩ := ih (p + 1) (by omega)
      exact ⟨t, by rw [collapse_nl_go_cons_nl]; exact ht⟩
    · refine ⟨List.replicate (min p 2 - 1) '\n' ++ c :: collapse_nl_go 0 rest, ?_⟩
      rw [collapse_nl_go_cons_other p c rest hc,
        show min p 2 = (min p 2 - 1) + 1 from by omega, List.replicate_succ,
        List.cons_append, Nat.add_sub_cancel]

/-- Newline collapsing preserves non-whitespace prefixes of the output
verbatim, with matching word-boundary status after them. -/
theorem collapse_nl_take_eq :
    ∀ (u : List Char) (k : Nat),
      (∀ ch ∈ (collapse_nl_go 0 u).take k, pyIsSpace ch = false) →
      (collapse_nl_go 0 u).take k = u.take k ∧
      (word_boundary_after ((collapse_nl_go 0 u).drop k) = true →
        word_boundary_after (u.drop k) = true) := by
  intro u
  induction u with
  | nil =>
    intro k _
    exact ⟨rfl, fun hx => hx⟩
  | cons c rest ih =>
    intro k hk
    by_cases hc : c = '\n'
    · subst hc
      rw [collapse_nl_go_cons_nl 0 rest] at hk ⊢
      obtain ⟨t, ht⟩ := collapse_nl_go_pos_head rest 1 (by omega)
      rw [ht] at hk ⊢
      cases k with
      | zero =>
        refine ⟨rfl, fun _ => ?_⟩
        show (!isWordChar '\n') = true
        decide
      | succ j =>
        exact absurd (hk '\n' (by rw [List.take_succ_cons]; exact List.mem_cons_self _ _))
          (by decide)
    · rw [show collapse_nl_go 0 (c :: rest) = c :: collapse_nl_go 0 rest from by
        rw [collapse_nl_go_cons_other 0 c rest hc]; rfl] at hk ⊢
      cases k with
      | zero => exact ⟨rfl, fun hx => hx⟩
      | succ j =>
        obtain ⟨h1, h2⟩ := ih j (fun ch hch =>
          hk ch (by rw [List.take_succ_cons]; exact List.mem_cons_of_mem c hch))
        constructor
        · rw [List.take_succ_cons, List.take_succ_cons, h1]
        · rw [List.drop_succ_cons, List.drop_succ_cons]
          exact h2

/-- A keyword match in the newline-collapsed text survives un-collapsing
(the pending newlines are restored in front of the remaining input). -/
theorem collapse_nl_backward {ws : List (List Char)} (hw : kw_ok ws) :
    ∀ (u : List Char) (pending : Nat) (p q : Option Char),
      (word_boundary_before p = true → word_boundary_before q = true) →
      keyword_search_go ws p (collapse_nl_go pending u) = true →
      keyword_search_go ws q (List.replicate pending '\n' ++ u) = true := by
  intro u
  induction u with
  | nil =>
    intro pending p q _ h
    have hfx : keyword_search_go ws p (List.replicate (min pending 2) '\n') = false := by
      apply keyword_search_go_nonalpha hw
      intro ch hch
      rw [List.eq_of_mem_replicate hch]
      decide
    rw [show collapse_nl_go pending [] = List.replicate (min pending 2) '\n' from rfl,
      hfx] at h
    cases h
  | cons c rest ih =>
    intro pending p q hinv h
    by_cases hc : c = '\n'
    · subst hc
      rw [collapse_nl_go_cons_nl pending rest] at h
      have h2 := ih (pending + 1) p q hinv h
      rw [List.replicate_succ', List.append_assoc] at h2
      exact h2
    · rw [collapse_nl_go_cons_other pending c rest hc] at h
      have hskip := keyword_search_go_skip hw (List.replicate (min pending 2) '\n')
        (c :: collapse_nl_go 0 rest) p
        (fun d hd => by rw [List.eq_of_mem_replicate hd]; decide) h
      have hpwbb0 : keyword_search_go ws (last_or (List.replicate (min pending 2) '\n') p)
          (c :: collapse_nl_go 0 rest) = true := hskip
      unfold keyword_search_go at hpwbb0
      rw [Bool.or_eq_true] at hpwbb0
      apply keyword_search_go_embed ws (List.replicate pending '\n') (c :: rest) q
      unfold keyword_search_go
      rw [Bool.or_eq_true]
      rcases hpwbb0 with hhead | htail
      · left
        have hpwbb : word_boundary_before
            (last_or (List.replicate (min pending 2) '\n') p) = true := by
          by_contra hx
          rw [Bool.not_eq_true] at hx
          unfold keyword_here at hhead
          rw [hx] at hhead
          simp at hhead
        have hqwbb : word_boundary_before
            (last_or (List.replicate pending '\n') q) = true := by
          cases pending with
          | zero =>
            rw [List.replicate_zero, last_or_nil]
            apply hinv
            rw [show min 0 2 = 0 from rfl, List.replicate_zero, last_or_nil] at hpwbb
            exact hpwbb
          | succ n =>
            rw [last_or_replicate_succ]
            decide
        exact keyword_here_transfer hw c (collapse_nl_go 0 rest) rest
          (last_or (List.replicate (min pending 2) '\n') p)
          (last_or (List.replicate pending '\n') q) hqwbb
          (fun k hk => collapse_nl_take_eq rest k hk) hhead
      · right
        have h3 := ih 0 (some c) (some c) (fun hx => hx) htail
        rw [List.replicate_zero, List.nil_append] at h3
        exact h3

/-- Joining distributes over a head character of the first line. -/
theorem join_nl_cons_head (c : Char) (h : List Char) (t : List (List Char)) :
    join_nl ((c :: h) :: t) = c :: join_nl (h :: t) := by
  cases t <;> rfl

/-- Joining the newline split restores the text. -/
theorem join_split_on_nl : ∀ b : List Char, join_nl (split_on_nl b) = b := by
  intro b
  induction b with
  | nil => rfl
  | cons c rest ih =>
    unfold split_on_nl
    by_cases hc : c = '\n'
    · subst hc
      rw [if_pos rfl]
      cases hs : split_on_nl rest with
      | nil => exact absurd hs (split_on_nl_ne_nil rest)
      | cons h t =>
        rw [hs] at ih
        show '\n' :: join_nl (h :: t) = '\n' :: rest
        rw [ih]
    · rw [if_neg hc]
      cases hs : split_on_nl rest with
      | nil => exact absurd hs (split_on_nl_ne_nil rest)
      | cons h t =>
        rw [hs] at ih
        dsimp only
        rw [join_nl_cons_head, ih]

/-- Splitting text with a final newline appends one empty piece. -/
theorem split_on_nl_append_nl :
    ∀ u : List Char, split_on_nl (u ++ ['\n']) = split_on_nl u ++ [[]] := by
  intro u
  induction u with
  | nil => rfl
  | cons c u' ih =>
    rw [List.cons_append]
    unfold split_on_nl
    by_cases hc : c = '\n'
    · subst hc
      rw [if_pos rfl, if_pos rfl, ih, List.cons_append]
    · rw [if_neg hc, if_neg hc, ih]
      cases hs : split_on_nl u' with
      | nil => exact absurd hs (split_on_nl_ne_nil u')
      | cons h t => rfl

/-- The body is its split-and-joined form plus at most one trailing
newline. -/
theorem join_split_prefix (b : List Char) :
    ∃ z, b = join_nl (split_lines b) ++ z ∧ (z = [] ∨ z = ['\n']) := by
  cases hb : b with
  | nil => exact ⟨[], rfl, Or.inl rfl⟩
  | cons c rest =>
    rw [← hb]
    unfold split_lines
    rw [hb]
    dsimp only
    rw [← hb]
    by_cases hlast : b.getLast? = some '\n'
    · rw [if_pos hlast]
      have hbne : b ≠ [] := by rw [hb]; exact List.cons_ne_nil c rest
      have hsplit : b.dropLast ++ ['\n'] = b := by
        have h1 := List.dropLast_append_getLast hbne
        rw [List.getLast?_eq_getLast b hbne] at hlast
        injection hlast with h2
        rw [h2] at h1
        exact h1
      refine ⟨['\n'], ?_, Or.inr rfl⟩
      conv_rhs => rw [← hsplit, split_on_nl_append_nl, List.dropLast_concat,
        join_split_on_nl]
      exact hsplit.symm
    · rw [if_neg hlast]
      exact ⟨[], by rw [join_split_on_nl, List.append_nil], Or.inl rfl⟩

/-- A keyword match in the normalized subject carries back to the original
subject. -/
theorem keyword_subject_backward {ws : List (List Char)} (hw : kw_ok ws) (s : List Char)
    (h : keyword_search ws (ws_normalize_subject s) = true) :
    keyword_search ws s = true := by
  unfold ws_normalize_subject at h
  have h1 := keyword_search_strip_backward ws (collapse_ws s) h
  exact collapse_ws_backward hw s false none none (fun hx => hx) h1

/-- A keyword match in the normalized body carries back to the original
body. -/
theorem keyword_body_backward {ws : List (List Char)} (hw : kw_ok ws) (b : List Char)
    (h : keyword_search ws (ws_normalize_body b) = true) :
    keyword_search ws b = true := by
  unfold ws_normalize_body at h
  have h1 : keyword_search ws (strip_ws (join_nl (split_lines b))) = true := by
    have h0 := collapse_nl_backward hw (strip_ws (join_nl (split_lines b))) 0 none none
      (fun hx => hx) h
    rw [List.replicate_zero, List.nil_append] at h0
    exact h0
  have h2 := keyword_search_strip_backward ws (join_nl (split_lines b)) h1
  obtain ⟨z, hz, hshape⟩ := join_split_prefix b
  have hwba : word_boundary_after z = true := by
    rcases hshape with rfl | rfl <;> decide
  have h3 := keyword_search_go_append_right ws z hwba (join_nl (split_lines b)) none h2
  unfold keyword_search
  rw [hz]
  exact h3

/-- On violation-free input, a keyword pattern cannot match the sanitized
combined text: whitespace normalization never creates a keyword match. -/
theorem keyword_sanitized_false {ws : List (List Char)} (hw : kw_ok ws)
    (s b : List Char) (hfalse : keyword_search ws (s ++ '\n' :: b) = false) :
    keyword_search ws (ws_normalize_subject s ++ '\n' :: ws_normalize_body b) = false := by
  by_contra hx
  rw [Bool.not_eq_false] at hx
  rcases keyword_search_go_split hw (ws_normalize_subject s) none (ws_normalize_body b) hx
    with h | h
  · have h2 := keyword_subject_backward hw s h
    have h3 := keyword_search_go_append_right ws ('\n' :: b) rfl s none h2
    have h4 : keyword_search ws (s ++ '\n' :: b) = true := h3
    rw [hfalse] at h4
    cases h4
  · have h2 := keyword_body_backward hw b h
    have h3 := keyword_search_embed_after_nl ws s b h2
    rw [hfalse] at h3
    cases h3

/-- C8 (corrected): on violation-free input, `sanitize_customer_email` is
exactly the pure whitespace normalization — the subject has its whitespace
runs collapsed and is stripped, the body keeps every line, is stripped and
has blank runs collapsed; nothing is redacted.  Re-evaluating the sanitized
text is NOT guaranteed to pass (the separately proved counterexample shows
whitespace collapsing can shrink an over-long brace region under the
600-character bound of `TOOL_JSON_BLOB`), but that is the only possible new
violation: the three word-boundary keyword patterns can never newly match,
so a failing re-evaluation reports exactly `["TOOL_JSON_BLOB"]`. -/
theorem sanitize_normalization_and_residual (s b : List Char)
    (h : (evaluate_output_guard s b).passed = true) :
    sanitize_customer_email s b = (ws_normalize_subject s, ws_normalize_body b) ∧
    ((evaluate_output_guard (ws_normalize_subject s) (ws_normalize_body b)).passed =
        false →
      (evaluate_output_guard (ws_normalize_subject s)
        (ws_normalize_body b)).violations = ["TOOL_JSON_BLOB"]) := by
  have hfv : find_violations s b = [] := by
    unfold evaluate_output_guard at h
    dsimp only at h
    exact List.isEmpty_iff.mp h
  have hs1 : keyword_search scores_keywords (s ++ '\n' :: b) = false := by
    by_contra hx
    rw [Bool.not_eq_false] at hx
    unfold find_violations at hfv
    dsimp only at hfv
    rw [hx] at hfv
    simp at hfv
  have hs2 : keyword_search policy_keywords (s ++ '\n' :: b) = false := by
    by_contra hx
    rw [Bool.not_eq_false] at hx
    unfold find_violations at hfv
    dsimp only at hfv
    rw [hx] at hfv
    simp at hfv
  have hs3 : keyword_search rag_keywords (s ++ '\n' :: b) = false := by
    by_contra hx
    rw [Bool.not_eq_false] at hx
    unfold find_violations at hfv
    dsimp only at hfv
    rw [hx] at hfv
    simp at hfv
  have hn1 := keyword_sanitized_false (by decide) s b hs1
  have hn2 := keyword_sanitized_false (by decide) s b hs2
  have hn3 := keyword_sanitized_false (by decide) s b hs3
  constructor
  · exact sanitize_ws_normalization s b h
  · intro hfail
    unfold evaluate_output_guard find_violations at hfail ⊢
    dsimp only at hfail ⊢
    rw [hn1, hn2, hn3] at hfail ⊢
    simp only [Bool.false_eq_true, if_false, List.nil_append] at hfail ⊢
    by_cases hblob : blob_search
        (ws_normalize_subject s ++ '\n' :: ws_normalize_body b) = true
    · rw [if_pos hblob]
    · rw [if_neg hblob] at hfail
      cases hfail

/-- Witness for the C8 theorem at a concrete violation-free email. -/
theorem sanitize_normalization_and_residual_witness :
    (evaluate_output_guard ['H', 'i'] ['O', 'k']).passed = true ∧
    (sanitize_customer_email ['H', 'i'] ['O', 'k'] =
        (ws_normalize_subject ['H', 'i'], ws_normalize_body ['O', 'k']) ∧
      ((evaluate_output_guard (ws_normalize_subject ['H', 'i'])
          (ws_normalize_body ['O', 'k'])).passed = false →
        (evaluate_output_guard (ws_normalize_subject ['H', 'i'])
          (ws_normalize_body ['O', 'k'])).violations = ["TOOL_JSON_BLOB"])) :=
  ⟨by decide, sanitize_normalization_and_residual ['H', 'i'] ['O', 'k'] (by decide)⟩
